import Mathlib

/-!
Verification of the Ableton `Preferences.cfg` binary parser/writer
(`MCP_Server/preferences.py`): the length-prefixed UTF-16LE string codec,
the marker/zero-padding anchor locator, the control-surface slot parser,
and the backup-splice-verify writer.

Bytes are modelled as `Nat` (values 0..255), Python `str` values as lists
of Unicode code points, and files as in-memory byte lists with the writer
carrying the current on-disk bytes explicitly.
-/

deriving instance DecidableEq for Except

namespace AbletonPrefs

/-- A Python `bytes` value: a list of byte values. -/
abbrev ByteSeq := List Nat

/-- A Python `str` value: a list of Unicode code points. -/
abbrev PyStr := List Nat

/-- `MAGIC_HEADER = bytes.fromhex("ab1e5678")`. -/
def MAGIC_HEADER : ByteSeq := [0xab, 0x1e, 0x56, 0x78]

/-- `MIDI_OUT_DEVICE_PREFS_MARKER = b"MidiOutDevicePreferences"` (ASCII codes). -/
def MIDI_OUT_DEVICE_PREFS_MARKER : ByteSeq :=
  [77, 105, 100, 105, 79, 117, 116, 68, 101, 118, 105, 99, 101,
   80, 114, 101, 102, 101, 114, 101, 110, 99, 101, 115]

/-- `NUM_CONTROL_SURFACE_SLOTS = 7`. -/
def NUM_CONTROL_SURFACE_SLOTS : Nat := 7

/-- `MAX_STRING_LENGTH = 1000`. -/
def MAX_STRING_LENGTH : Nat := 1000

/-- The string `"None"` as code points. -/
def NONE_STR : PyStr := [78, 111, 110, 101]

/-! ## Error taxonomy

`PreferencesParseError` and its subclasses.  `formatError` stands for the
base `PreferencesParseError` raised by the codec and slot parser,
`invalidFile` for `InvalidPreferencesFileError`, `slotsNotFound` for
`ControlSurfaceSlotsNotFoundError`. -/

inductive PErr where
  | formatError
  | invalidFile
  | slotsNotFound
deriving DecidableEq, Repr

/-! ## UTF-16LE codec (Python `encode('utf-16-le')` / `decode('utf-16-le')`,
strict error handling) -/

/-- UTF-16 code units of a single code point (assumes `c < 0x110000`). -/
def encodeCodePoint (c : Nat) : List Nat :=
  if c < 0x10000 then [c]
  else [0xD800 + (c - 0x10000) / 0x400, 0xDC00 + (c - 0x10000) % 0x400]

/-- Is the code point a (lone) surrogate?  Python refuses to encode these. -/
def isSurrogateCP (c : Nat) : Bool := decide (0xD800 ≤ c ∧ c < 0xE000)

/-- UTF-16 code units of a string (meaningful when no lone surrogates). -/
def strUnits (s : PyStr) : List Nat := s.flatMap encodeCodePoint

/-- Serialize code units little-endian, two bytes each. -/
def unitsToBytes : List Nat → ByteSeq
  | [] => []
  | u :: us => (u % 256) :: (u / 256 % 256) :: unitsToBytes us

/-- `value.encode('utf-16-le')`: `none` models `UnicodeEncodeError`
(lone surrogate in the string). -/
def utf16leEncode (s : PyStr) : Option ByteSeq :=
  if s.any isSurrogateCP then none else some (unitsToBytes (strUnits s))

/-- Group bytes into little-endian 16-bit code units; `none` on odd length
(truncated data, a `UnicodeDecodeError` in Python). -/
def bytesToUnits : ByteSeq → Option (List Nat)
  | [] => some []
  | [_] => none
  | b0 :: b1 :: bs => (bytesToUnits bs).map (fun us => (b0 + b1 * 256) :: us)

/-- Combine code units into code points; `none` on a lone surrogate
(strict decoding). -/
def unitsToStr : List Nat → Option PyStr
  | [] => some []
  | u :: us =>
    if u < 0xD800 ∨ 0xE000 ≤ u then
      (unitsToStr us).map (fun s => u :: s)
    else if u < 0xDC00 then
      match us with
      | [] => none
      | v :: vs =>
        if 0xDC00 ≤ v ∧ v < 0xE000 then
          (unitsToStr vs).map
            (fun s => (0x10000 + (u - 0xD800) * 0x400 + (v - 0xDC00)) :: s)
        else none
    else none

/-- `data.decode('utf-16-le')` with strict error handling. -/
def utf16leDecode (b : ByteSeq) : Option PyStr :=
  match bytesToUnits b with
  | none => none
  | some us => unitsToStr us

/-! ## Binary helpers -/

/-- `struct.unpack_from("<I", data, offset)[0]`: 4-byte little-endian
unsigned read (callers have checked `offset + 4 <= len(data)`). -/
def le32at (data : ByteSeq) (offset : Nat) : Nat :=
  data.getD offset 0 + data.getD (offset + 1) 0 * 256 +
    data.getD (offset + 2) 0 * 65536 + data.getD (offset + 3) 0 * 16777216

/-- `struct.pack("<I", n)` for `n < 2^32`. -/
def le32 (n : Nat) : ByteSeq :=
  [n % 256, n / 256 % 256, n / 65536 % 256, n / 16777216 % 256]

/-- Python slice `data[a : b]`. -/
def slice (data : ByteSeq) (a b : Nat) : ByteSeq := (data.drop a).take (b - a)

/-! ## `_read_utf16_string` / `_write_utf16_string` -/

/-- `_read_utf16_string(data, offset)`: length-prefixed UTF-16LE string read,
returning the decoded string and total bytes consumed, or raising
`PreferencesParseError` (`.formatError`). -/
def readUtf16String (data : ByteSeq) (offset : Nat) :
    Except PErr (PyStr × Nat) :=
  if offset + 4 > data.length then
    .error .formatError
  else
    let length := le32at data offset
    if length > MAX_STRING_LENGTH then
      .error .formatError
    else
      let string_end := offset + 4 + length * 2
      if string_end > data.length then
        .error .formatError
      else
        match utf16leDecode (slice data (offset + 4) string_end) with
        | none => .error .formatError
        | some s => .ok (s, 4 + length * 2)

/-- `_write_utf16_string(value)`: 4-byte length prefix (character count,
not byte count) plus UTF-16LE bytes; `none` models the unhandled
`UnicodeEncodeError` on lone surrogates. -/
def writeUtf16String (value : PyStr) : Option ByteSeq :=
  (utf16leEncode value).map (fun encoded => le32 value.length ++ encoded)

/-! ## `_find_last_marker` -/

/-- Does `marker` occur in `data` at byte offset `i`? -/
def occursAt (data marker : ByteSeq) (i : Nat) : Prop :=
  marker <+: data.drop i

instance (data marker : ByteSeq) (i : Nat) : Decidable (occursAt data marker i) :=
  inferInstanceAs (Decidable (marker <+: data.drop i))

/-- Scan a suffix for the first occurrence of `m`, reporting the absolute
index (`i` is the absolute index of the head of the suffix). -/
def findSub (m : ByteSeq) : ByteSeq → Nat → Option Nat
  | [], i => if m.isPrefixOf [] then some i else none
  | d :: ds, i =>
    if m.isPrefixOf (d :: ds) then some i else findSub m ds (i + 1)

/-- `data.find(marker, start)` for a `bytes` value: lowest occurrence index
at or after `start`, `none` for Python's `-1`. -/
def pyFind (data m : ByteSeq) (start : Nat) : Option Nat :=
  findSub m (data.drop start) start

/-- The `while True` loop of `_find_last_marker`, with enough fuel to run
to completion: repeatedly `find` from `idx`, remembering the last hit. -/
def findLastMarkerLoop (data m : ByteSeq) : Nat → Nat → Option Nat → Option Nat
  | 0, _, last => last
  | fuel + 1, idx, last =>
    match pyFind data m idx with
    | none => last
    | some j => findLastMarkerLoop data m fuel (j + 1) (some j)

/-- `_find_last_marker(data, marker)`: offset of the last occurrence, or
`none` (the function then raises `ControlSurfaceSlotsNotFoundError`). -/
def findLastMarker (data m : ByteSeq) : Option Nat :=
  findLastMarkerLoop data m (data.length + 2) 0 none

/-! ## `_find_control_surface_start` -/

/-- Do at least 8 consecutive zero bytes begin at offset `q`? -/
def zeroRunAt (data : ByteSeq) (q : Nat) : Prop :=
  (data.drop q).take 8 = List.replicate 8 0

instance (data : ByteSeq) (q : Nat) : Decidable (zeroRunAt data q) :=
  inferInstanceAs (Decidable ((data.drop q).take 8 = List.replicate 8 0))

/-- The zero-padding scan loop of `_find_control_surface_start`
(`while offset < len(data) - min_zero_run`), fuelled. -/
def findZeroPaddingLoop (data : ByteSeq) : Nat → Nat → Option Nat
  | 0, _ => none
  | fuel + 1, offset =>
    if offset < data.length - 8 then
      if slice data offset (offset + 8) = List.replicate 8 0 then some offset
      else findZeroPaddingLoop data fuel (offset + 1)
    else none

/-- Step 2 of `_find_control_surface_start`: scan forward from `offset`
for the first position (strictly before `len(data) - 8`) where 8
consecutive zero bytes begin. -/
def findZeroPadding (data : ByteSeq) (offset : Nat) : Option Nat :=
  findZeroPaddingLoop data (data.length + 1) offset

/-- Step 3: `while offset < len(data) and data[offset] == 0: offset += 1`,
fuelled. -/
def skipZerosLoop (data : ByteSeq) : Nat → Nat → Nat
  | 0, offset => offset
  | fuel + 1, offset =>
    if offset < data.length ∧ data.getD offset 0 = 0 then
      skipZerosLoop data fuel (offset + 1)
    else offset

/-- Skip all contiguous zero bytes starting at `offset`. -/
def skipZeros (data : ByteSeq) (offset : Nat) : Nat :=
  skipZerosLoop data (data.length + 1) offset

/-- `_find_control_surface_start(data)`: anchor on the last marker
occurrence, scan for the zero padding, skip it, and validate the
resulting offset. -/
def findControlSurfaceStart (data : ByteSeq) : Except PErr Nat :=
  match findLastMarker data MIDI_OUT_DEVICE_PREFS_MARKER with
  | none => .error .slotsNotFound
  | some marker_offset =>
    let offset0 := marker_offset + MIDI_OUT_DEVICE_PREFS_MARKER.length
    match findZeroPadding data offset0 with
    | none => .error .slotsNotFound
    | some padded =>
      let offset := skipZeros data padded
      if offset + 4 > data.length then .error .slotsNotFound
      else
        let first_length := le32at data offset
        if first_length > MAX_STRING_LENGTH then .error .slotsNotFound
        else if data.length - offset < 84 then .error .slotsNotFound
        else .ok offset

/-! ## Slot data model -/

/-- `ControlSurfaceSlot`: one parsed slot. -/
structure ControlSurfaceSlot where
  index : Nat
  script_name : PyStr
  input_device : PyStr
  output_device : PyStr
deriving DecidableEq, Repr

instance : Inhabited ControlSurfaceSlot := ⟨⟨0, [], [], []⟩⟩

/-- `ControlSurfaceSlot.is_empty`: the script name is `"None"`. -/
def ControlSurfaceSlot.is_empty (s : ControlSurfaceSlot) : Bool :=
  s.script_name = NONE_STR

/-- `SlotOffset`: byte offsets/sizes of a slot's three fields in a
specific buffer snapshot. -/
structure SlotOffset where
  index : Nat
  script_name_offset : Nat
  script_name_size : Nat
  input_device_offset : Nat
  input_device_size : Nat
  output_device_offset : Nat
  output_device_size : Nat
deriving DecidableEq, Repr

instance : Inhabited SlotOffset := ⟨⟨0, 0, 0, 0, 0, 0, 0⟩⟩

/-! ## `_parse_control_surface_slots` -/

/-- The slot-parsing loop: parse `n` consecutive (script, input, output)
record triples starting at `offset`, with `idx` the next slot index.
Also returns the final cursor (the loop variable `offset`). -/
def parseSlotsAux (data : ByteSeq) :
    Nat → Nat → Nat → Except PErr (List ControlSurfaceSlot × List SlotOffset × Nat)
  | 0, offset, _ => .ok ([], [], offset)
  | n + 1, offset, idx =>
    match readUtf16String data offset with
    | .error e => .error e
    | .ok (script_name, script_size) =>
      match readUtf16String data (offset + script_size) with
      | .error e => .error e
      | .ok (input_device, input_size) =>
        match readUtf16String data (offset + script_size + input_size) with
        | .error e => .error e
        | .ok (output_device, output_size) =>
          match parseSlotsAux data n
              (offset + script_size + input_size + output_size) (idx + 1) with
          | .error e => .error e
          | .ok (slots, offsets, fin) =>
            .ok (⟨idx, script_name, input_device, output_device⟩ :: slots,
                 ⟨idx, offset, script_size, offset + script_size, input_size,
                  offset + script_size + input_size, output_size⟩ :: offsets,
                 fin)

/-- `_parse_control_surface_slots(data, start_offset)`. -/
def parseControlSurfaceSlots (data : ByteSeq) (start_offset : Nat) :
    Except PErr (List ControlSurfaceSlot × List SlotOffset) :=
  match parseSlotsAux data NUM_CONTROL_SURFACE_SLOTS start_offset 0 with
  | .error e => .error e
  | .ok (slots, offsets, _) => .ok (slots, offsets)

/-! ## `PreferencesParser` -/

/-- `PreferencesParser._validate_magic_header`. -/
def validateMagicHeader (data : ByteSeq) : Except PErr Unit :=
  if data.length < MAGIC_HEADER.length then .error .invalidFile
  else if data.take MAGIC_HEADER.length ≠ MAGIC_HEADER then .error .invalidFile
  else .ok ()

/-- The state built by `PreferencesParser.__init__`. -/
structure ParserState where
  data : ByteSeq
  start_offset : Nat
  slots : List ControlSurfaceSlot
  slot_offsets : List SlotOffset
deriving DecidableEq, Repr

instance : Inhabited ParserState := ⟨⟨[], 0, [], []⟩⟩

/-- `PreferencesParser.__init__(data)` / `PreferencesParser.from_file`:
validate the magic header, locate the slot block, parse the slots. -/
def parsePreferences (data : ByteSeq) : Except PErr ParserState :=
  match validateMagicHeader data with
  | .error e => .error e
  | .ok _ =>
    match findControlSurfaceStart data with
    | .error e => .error e
    | .ok start_offset =>
      match parseControlSurfaceSlots data start_offset with
      | .error e => .error e
      | .ok (slots, slot_offsets) =>
        .ok ⟨data, start_offset, slots, slot_offsets⟩

/-- `PreferencesParser.find_empty_slot`: first slot with `is_empty`. -/
def findEmptySlot : List ControlSurfaceSlot → Option ControlSurfaceSlot
  | [] => none
  | s :: rest => if s.is_empty then some s else findEmptySlot rest

/-! ## `PreferencesWriter` -/

/-- Errors a `set_control_surface` call can raise.  `writeError` is
`PreferencesWriteError`; its argument is the backup path interpolated
into the exception message (`Restore from backup at {self.backup_path}`).
`encodeError` is the unhandled `UnicodeEncodeError` from
`_write_utf16_string` on a lone surrogate. -/
inductive SetError where
  | indexError
  | noEmptySlot
  | encodeError
  | writeError (backup_path : String)
deriving DecidableEq, Repr

/-- The writer's world: its path, the bytes currently on disk, the backup
file contents (if a backup was made), and the cached parser built by
`__init__` (line 545) and refreshed only by `_verify_write` (line 708). -/
structure WriterState where
  path : String
  disk : ByteSeq
  backupDisk : Option ByteSeq
  parser : ParserState
deriving DecidableEq, Repr

instance : Inhabited WriterState := ⟨⟨"", [], none, default⟩⟩

/-- `Path.with_suffix('.cfg.backup')` applied to a preferences path ending
in `.cfg`: the net effect is appending `.backup`. -/
def backupPathOf (path : String) : String := path ++ ".backup"

/-- `PreferencesWriter.backup_path`. -/
def WriterState.backup_path (w : WriterState) : String := backupPathOf w.path

/-- `PreferencesWriter.__init__(prefs_path)`: validate the file is
parseable and cache the parser. -/
def mkWriter (path : String) (disk : ByteSeq) : Except PErr WriterState :=
  (parsePreferences disk).map (fun p => ⟨path, disk, none, p⟩)

/-- `PreferencesWriter._find_target_slot(slot_index)`. -/
def findTargetSlot (p : ParserState) (slot_index : Option Nat) :
    Except SetError Nat :=
  match slot_index with
  | some i =>
    if i < NUM_CONTROL_SURFACE_SLOTS then .ok i else .error .indexError
  | none =>
    match findEmptySlot p.slots with
    | some s => .ok s.index
    | none => .error .noEmptySlot

/-- `PreferencesWriter._splice_data(data, offset, old_size, new_bytes)`:
`data[:offset] + new_bytes + data[offset + old_size:]`. -/
def spliceData (data : ByteSeq) (offset old_size : Nat) (new_bytes : ByteSeq) :
    ByteSeq :=
  data.take offset ++ new_bytes ++ data.drop (offset + old_size)

/-- `PreferencesWriter.set_control_surface(script_name, slot_index,
create_backup)`: read the file fresh, pick the target slot, take that
slot's offsets from the *cached* parser (`self._parser.get_slot_offset`,
line 651), encode, back up, splice, write, and verify by re-parsing the
just-written bytes (`_verify_write`).  Returns the updated world and the
written slot index or the raised error. -/
def setControlSurface (w : WriterState) (script_name : PyStr)
    (slot_index : Option Nat) (create_backup : Bool) :
    WriterState × Except SetError Nat :=
  let data := w.disk
  match findTargetSlot w.parser slot_index with
  | .error e => (w, .error e)
  | .ok target_index =>
    let slot_offset := w.parser.slot_offsets.getD target_index default
    match writeUtf16String script_name with
    | none => (w, .error .encodeError)
    | some new_bytes =>
      let w1 := if create_backup then { w with backupDisk := some data } else w
      let new_data :=
        spliceData data slot_offset.script_name_offset
          slot_offset.script_name_size new_bytes
      let w2 := { w1 with disk := new_data }
      match parsePreferences new_data with
      | .error _ => (w2, .error (.writeError w.backup_path))
      | .ok p' =>
        if (p'.slots.getD target_index default).script_name = script_name then
          ({ w2 with parser := p' }, .ok target_index)
        else
          (w2, .error (.writeError w.backup_path))

/-! ## Concrete fixture buffers -/

/-- `n` copies of a byte block, concatenated. -/
def repBlock (n : Nat) (l : ByteSeq) : ByteSeq := (List.replicate n l).flatten

/-- The encoded record for `"None"`. -/
def recNone : ByteSeq := [4, 0, 0, 0, 78, 0, 111, 0, 110, 0, 101, 0]

/-- The encoded record for `"X"`. -/
def recX : ByteSeq := [1, 0, 0, 0, 88, 0]

/-- The string `"X"` as code points. -/
def strX : PyStr := [88]

/-- A minimal valid fixture: magic header, marker, 12 zero-padding bytes,
then 21 `"None"` records (7 empty slots). -/
def fixtureA : ByteSeq :=
  MAGIC_HEADER ++ MIDI_OUT_DEVICE_PREFS_MARKER ++ List.replicate 12 0 ++
    repBlock 21 recNone

/-- The same fixture with one extra zero-padding byte, so every slot
field sits one byte later than in `fixtureA`. -/
def fixtureB : ByteSeq :=
  MAGIC_HEADER ++ MIDI_OUT_DEVICE_PREFS_MARKER ++ List.replicate 13 0 ++
    repBlock 21 recNone

/-- A 12-character string whose UTF-16LE bytes are one filler byte `'A'`
followed by the first 23 bytes of the marker: code units formed from the
ASCII pairs of `"AMidiOutDevicePreference"`. -/
def strTrap : PyStr :=
  [0x4D41, 0x6469, 0x4F69, 0x7475, 0x6544, 0x6976, 0x6563, 0x7250,
   0x6665, 0x7265, 0x6E65, 0x6563]

/-- The encoded record for `strTrap` (4-byte length 12, then 24 payload
bytes ending in `"MidiOutDevicePreference"`). -/
def recTrap : ByteSeq := [12, 0, 0, 0, 65] ++ MIDI_OUT_DEVICE_PREFS_MARKER.take 23

/-- The 115-character string `"aaa…a"`. -/
def strA115 : PyStr := List.replicate 115 97

/-- The encoded record for `strA115`: length byte `115 = 's'`, which
completes a marker occurrence when written right after
`"…MidiOutDevicePreference"`. -/
def recA115 : ByteSeq := [115, 0, 0, 0] ++ repBlock 115 [97, 0]

/-- A fake slot block of 21 records whose slot 1 script is `strA115` and
whose other strings are all `"X"`. -/
def fakeBlock : ByteSeq :=
  repBlock 3 recX ++ recA115 ++ recX ++ recX ++ repBlock 15 recX

/-- Adversarial but fully valid preferences buffer: slot 0's output
device is `strTrap` (so the 23 bytes right before slot 1's script field
read `"MidiOutDevicePreference"`), and the trailing bytes after the 21
records hold 8 zero bytes and `fakeBlock`.  Writing `strA115` into slot 1
completes a new, later marker occurrence, re-anchoring verification onto
`fakeBlock`. -/
def fixtureC : ByteSeq :=
  MAGIC_HEADER ++ MIDI_OUT_DEVICE_PREFS_MARKER ++ List.replicate 8 0 ++
    (recNone ++ recNone ++ recTrap) ++
    repBlock 18 recNone ++
    (List.replicate 8 0 ++ fakeBlock)

/-! ## Codec lemmas -/

theorem unitsToBytes_length (us : List Nat) :
    (unitsToBytes us).length = 2 * us.length := by
  induction us with
  | nil => simp [unitsToBytes]
  | cons u us ih => simp [unitsToBytes, ih]; omega

theorem bytesToUnits_unitsToBytes (us : List Nat) (h : ∀ u ∈ us, u < 65536) :
    bytesToUnits (unitsToBytes us) = some us := by
  induction us with
  | nil => simp [unitsToBytes, bytesToUnits]
  | cons u us ih =>
    have hu : u < 65536 := h u (by simp)
    have : u % 256 + u / 256 % 256 * 256 = u := by omega
    simp [unitsToBytes, bytesToUnits, ih (fun v hv => h v (by simp [hv])), this]

theorem bytesToUnits_inv (b : ByteSeq) :
    ∀ us, (∀ x ∈ b, x < 256) → bytesToUnits b = some us →
      unitsToBytes us = b := by
  induction b using bytesToUnits.induct with
  | case1 =>
    intro us _ h
    simp [bytesToUnits] at h
    subst h
    rfl
  | case2 b0 =>
    intro us _ h
    simp [bytesToUnits] at h
  | case3 b0 b1 bs ih =>
    intro us hbyte h
    simp only [bytesToUnits, Option.map_eq_some'] at h
    obtain ⟨us', hus', rfl⟩ := h
    have h0 : b0 < 256 := hbyte b0 (by simp)
    have h1 : b1 < 256 := hbyte b1 (by simp)
    have hrest : ∀ x ∈ bs, x < 256 := fun x hx => hbyte x (by simp [hx])
    simp only [unitsToBytes, ih us' hrest hus', List.cons.injEq, and_true]
    exact ⟨by omega, by omega⟩

theorem bytesToUnits_lt (b : ByteSeq) :
    ∀ us, (∀ x ∈ b, x < 256) → bytesToUnits b = some us →
      ∀ u ∈ us, u < 65536 := by
  induction b using bytesToUnits.induct with
  | case1 =>
    intro us _ h
    simp [bytesToUnits] at h
    subst h
    simp
  | case2 b0 =>
    intro us _ h
    simp [bytesToUnits] at h
  | case3 b0 b1 bs ih =>
    intro us hbyte h
    simp only [bytesToUnits, Option.map_eq_some'] at h
    obtain ⟨us', hus', rfl⟩ := h
    have h0 : b0 < 256 := hbyte b0 (by simp)
    have h1 : b1 < 256 := hbyte b1 (by simp)
    have hrest : ∀ x ∈ bs, x < 256 := fun x hx => hbyte x (by simp [hx])
    intro u hu
    rcases List.mem_cons.mp hu with rfl | hu'
    · omega
    · exact ih us' hrest hus' u hu'

theorem unitsToStr_inv (us : List Nat) (s : PyStr)
    (hlt : ∀ u ∈ us, u < 65536) (h : unitsToStr us = some s) :
    strUnits s = us ∧ s.any isSurrogateCP = false := by
  induction us using unitsToStr.induct generalizing s with
  | case1 =>
    simp [unitsToStr] at h
    subst h
    simp [strUnits]
  | case2 u us hu ih =>
    unfold unitsToStr at h
    rw [if_pos hu, Option.map_eq_some'] at h
    obtain ⟨s', hs', rfl⟩ := h
    obtain ⟨h1, h2⟩ := ih s' (fun v hv => hlt v (by simp [hv])) hs'
    have henc : encodeCodePoint u = [u] := by
      unfold encodeCodePoint
      rw [if_pos (hlt u (by simp))]
    refine ⟨by simpa [strUnits, henc] using h1, ?_⟩
    simp only [List.any_cons, Bool.or_eq_false_iff]
    exact ⟨by simp [isSurrogateCP]; omega, h2⟩
  | case3 u hu1 hu2 =>
    unfold unitsToStr at h
    rw [if_neg hu1, if_pos hu2] at h
    exact Option.noConfusion h
  | case4 u hu1 hu2 v vs hv ih =>
    unfold unitsToStr at h
    rw [if_neg hu1, if_pos hu2] at h
    simp only [if_pos hv, Option.map_eq_some'] at h
    obtain ⟨s', hs', rfl⟩ := h
    obtain ⟨h1, h2⟩ := ih s' (fun w hw => hlt w (by simp [hw])) hs'
    push_neg at hu1
    obtain ⟨hu1a, hu1b⟩ := hu1
    have henc : encodeCodePoint (65536 + (u - 55296) * 1024 + (v - 56320)) =
        [u, v] := by
      unfold encodeCodePoint
      rw [if_neg (by omega)]
      simp only [List.cons.injEq, and_true]
      constructor
      · omega
      · omega
    refine ⟨by simpa [strUnits, henc] using h1, ?_⟩
    simp only [List.any_cons, Bool.or_eq_false_iff]
    exact ⟨by simp [isSurrogateCP]; omega, h2⟩
  | case5 u hu1 hu2 v vs hv =>
    unfold unitsToStr at h
    rw [if_neg hu1, if_pos hu2] at h
    simp only [if_neg hv] at h
    exact Option.noConfusion h
  | case6 u us hu1 hu2 =>
    unfold unitsToStr at h
    rw [if_neg hu1, if_neg hu2] at h
    exact Option.noConfusion h

theorem unitsToStr_length_le (us : List Nat) (s : PyStr)
    (h : unitsToStr us = some s) : s.length ≤ us.length := by
  induction us using unitsToStr.induct generalizing s with
  | case1 =>
    simp [unitsToStr] at h
    subst h
    simp
  | case2 u us hu ih =>
    unfold unitsToStr at h
    rw [if_pos hu, Option.map_eq_some'] at h
    obtain ⟨s', hs', rfl⟩ := h
    simpa using Nat.succ_le_succ (ih s' hs')
  | case3 u hu1 hu2 =>
    unfold unitsToStr at h
    rw [if_neg hu1, if_pos hu2] at h
    exact Option.noConfusion h
  | case4 u hu1 hu2 v vs hv ih =>
    unfold unitsToStr at h
    rw [if_neg hu1, if_pos hu2] at h
    simp only [if_pos hv, Option.map_eq_some'] at h
    obtain ⟨s', hs', rfl⟩ := h
    have := ih s' hs'
    simp only [List.length_cons]
    omega
  | case5 u hu1 hu2 v vs hv =>
    unfold unitsToStr at h
    rw [if_neg hu1, if_pos hu2] at h
    simp only [if_neg hv] at h
    exact Option.noConfusion h
  | case6 u us hu1 hu2 =>
    unfold unitsToStr at h
    rw [if_neg hu1, if_neg hu2] at h
    exact Option.noConfusion h

/-- Strict UTF-16LE decoding is a right inverse of encoding: any byte
sequence (of genuine bytes) that decodes to `s` is exactly the UTF-16LE
encoding of `s`. -/
theorem utf16leDecode_inv (b : ByteSeq) (s : PyStr)
    (hbyte : ∀ x ∈ b, x < 256) (h : utf16leDecode b = some s) :
    utf16leEncode s = some b := by
  unfold utf16leDecode at h
  cases hus : bytesToUnits b with
  | none => rw [hus] at h; exact Option.noConfusion h
  | some us =>
    rw [hus] at h
    obtain ⟨h1, h2⟩ := unitsToStr_inv us s (bytesToUnits_lt b us hbyte hus) h
    unfold utf16leEncode
    rw [h2]
    simp only [Bool.false_eq_true, if_false, h1, Option.some.injEq]
    exact bytesToUnits_inv b us hbyte hus

theorem encodeCodePoint_length_pos (c : Nat) :
    1 ≤ (encodeCodePoint c).length := by
  unfold encodeCodePoint
  split <;> simp

theorem strUnits_length_ge (s : PyStr) : s.length ≤ (strUnits s).length := by
  induction s with
  | nil => simp [strUnits]
  | cons c s ih =>
    have h1 : strUnits (c :: s) = encodeCodePoint c ++ strUnits s := by
      simp [strUnits]
    rw [h1, List.length_append, List.length_cons]
    have := encodeCodePoint_length_pos c
    omega

theorem bytesToUnits_length (b : ByteSeq) (us : List Nat)
    (h : bytesToUnits b = some us) : b.length = 2 * us.length := by
  induction b using bytesToUnits.induct generalizing us with
  | case1 => simp [bytesToUnits] at h; subst h; simp
  | case2 b0 => simp [bytesToUnits] at h
  | case3 b0 b1 bs ih =>
    simp only [bytesToUnits, Option.map_eq_some'] at h
    obtain ⟨us', hus', rfl⟩ := h
    simp only [List.length_cons, ih us' hus']
    omega

theorem utf16leDecode_length (b : ByteSeq) (s : PyStr)
    (h : utf16leDecode b = some s) : 2 * s.length ≤ b.length := by
  unfold utf16leDecode at h
  cases hus : bytesToUnits b with
  | none => rw [hus] at h; exact Option.noConfusion h
  | some us =>
    rw [hus] at h
    have h1 := unitsToStr_length_le us s h
    have h2 := bytesToUnits_length b us hus
    omega

/-! ## Locality lemmas for the byte reader -/

theorem getD_eq_of_take_eq (data data2 : ByteSeq) (m i : Nat)
    (h : data.take m = data2.take m) (hi : i < m) :
    data.getD i 0 = data2.getD i 0 := by
  rw [List.getD_eq_getElem?_getD, List.getD_eq_getElem?_getD]
  have h1 : (data.take m)[i]? = data[i]? := by
    rw [List.getElem?_take, if_pos hi]
  have h2 : (data2.take m)[i]? = data2[i]? := by
    rw [List.getElem?_take, if_pos hi]
  rw [← h1, ← h2, h]

theorem getD_drop (data : ByteSeq) (a i : Nat) :
    (data.drop a).getD i 0 = data.getD (a + i) 0 := by
  rw [List.getD_eq_getElem?_getD, List.getD_eq_getElem?_getD,
    List.getElem?_drop]

theorem slice_eq_of_take_eq (data data2 : ByteSeq) (m a b : Nat)
    (h : data.take m = data2.take m) (hb : b ≤ m) :
    slice data a b = slice data2 a b := by
  have key : ∀ l : ByteSeq, slice l a b = ((l.take m).drop a).take (b - a) := by
    intro l
    rw [List.drop_take, List.take_take, slice]
    congr 1
    omega
  rw [key data, key data2, h]

theorem le32at_eq_of_take_eq (data data2 : ByteSeq) (m off : Nat)
    (h : data.take m = data2.take m) (hm : off + 4 ≤ m) :
    le32at data off = le32at data2 off := by
  unfold le32at
  rw [getD_eq_of_take_eq data data2 m off h (by omega),
    getD_eq_of_take_eq data data2 m (off + 1) h (by omega),
    getD_eq_of_take_eq data data2 m (off + 2) h (by omega),
    getD_eq_of_take_eq data data2 m (off + 3) h (by omega)]

theorem le32at_drop (data : ByteSeq) (off : Nat) :
    le32at data off = le32at (data.drop off) 0 := by
  unfold le32at
  rw [getD_drop, getD_drop, getD_drop, getD_drop]
  norm_num

/-- Inversion principle for `readUtf16String`. -/
theorem readUtf16String_ok_iff (data : ByteSeq) (off : Nat) (s : PyStr)
    (n : Nat) :
    readUtf16String data off = .ok (s, n) ↔
      off + 4 ≤ data.length ∧ le32at data off ≤ MAX_STRING_LENGTH ∧
      off + 4 + le32at data off * 2 ≤ data.length ∧
      utf16leDecode (slice data (off + 4) (off + 4 + le32at data off * 2)) =
        some s ∧
      n = 4 + le32at data off * 2 := by
  unfold readUtf16String
  by_cases h1 : off + 4 > data.length
  · rw [if_pos h1]
    simp only [reduceCtorEq, false_iff]
    rintro ⟨hA, -, -, -, -⟩
    omega
  · rw [if_neg h1]
    by_cases h2 : le32at data off > MAX_STRING_LENGTH
    · rw [if_pos h2]
      simp only [reduceCtorEq, false_iff]
      rintro ⟨-, hB, -, -, -⟩
      omega
    · rw [if_neg h2]
      by_cases h3 : off + 4 + le32at data off * 2 > data.length
      · rw [if_pos h3]
        simp only [reduceCtorEq, false_iff]
        rintro ⟨-, -, hC, -, -⟩
        omega
      · rw [if_neg h3]
        cases hdec : utf16leDecode (slice data (off + 4)
            (off + 4 + le32at data off * 2)) with
        | none =>
          simp only [reduceCtorEq, false_iff]
          rintro ⟨-, -, -, hD, -⟩
          exact hD.elim
        | some s' =>
          simp only [Except.ok.injEq, Prod.mk.injEq, Option.some.injEq]
          constructor
          · rintro ⟨rfl, rfl⟩
            exact ⟨by omega, by omega, by omega, rfl, rfl⟩
          · rintro ⟨-, -, -, hs, rfl⟩
            exact ⟨hs, rfl⟩

/-- `readUtf16String` raises exactly `formatError` when it fails. -/
theorem readUtf16String_error (data : ByteSeq) (off : Nat) (e : PErr)
    (h : readUtf16String data off = .error e) : e = .formatError := by
  unfold readUtf16String at h
  by_cases h1 : off + 4 > data.length
  · rw [if_pos h1] at h
    exact ((Except.error.injEq _ _).mp h).symm
  · rw [if_neg h1] at h
    by_cases h2 : le32at data off > MAX_STRING_LENGTH
    · rw [if_pos h2] at h
      exact ((Except.error.injEq _ _).mp h).symm
    · rw [if_neg h2] at h
      by_cases h3 : off + 4 + le32at data off * 2 > data.length
      · rw [if_pos h3] at h
        exact ((Except.error.injEq _ _).mp h).symm
      · rw [if_neg h3] at h
        cases hdec : utf16leDecode (slice data (off + 4)
            (off + 4 + le32at data off * 2)) with
        | none =>
          rw [hdec] at h
          exact ((Except.error.injEq _ _).mp h).symm
        | some s' =>
          rw [hdec] at h
          exact Except.noConfusion h

/-- A successful read stays within bounds and consumes at least 4 bytes. -/
theorem readUtf16String_bounds (data : ByteSeq) (off : Nat) (s : PyStr)
    (n : Nat) (h : readUtf16String data off = .ok (s, n)) :
    4 ≤ n ∧ off + n ≤ data.length := by
  rw [readUtf16String_ok_iff] at h
  omega

/-- Two `Except PErr` results that agree on all `ok` outcomes and can only
fail with `formatError` are equal. -/
theorem except_eq_of_ok_iff {A : Type} (r1 r2 : Except PErr A)
    (herr1 : ∀ e, r1 = .error e → e = .formatError)
    (herr2 : ∀ e, r2 = .error e → e = .formatError)
    (hok : ∀ a, r1 = .ok a ↔ r2 = .ok a) : r1 = r2 := by
  cases r1 with
  | ok a => exact ((hok a).mp rfl).symm
  | error e =>
    cases r2 with
    | ok b => exact absurd ((hok b).mpr rfl) (by simp)
    | error e2 => rw [herr1 e rfl, herr2 e2 rfl]

/-- Reading depends only on the suffix of the buffer from the offset on:
equal suffixes give equal results (including the error case). -/
theorem readUtf16String_drop_eq (data data2 : ByteSeq) (off off2 : Nat)
    (h : data.drop off = data2.drop off2) :
    readUtf16String data off = readUtf16String data2 off2 := by
  have hlen : data.length - off = data2.length - off2 := by
    have := congrArg List.length h
    simpa [List.length_drop] using this
  have hle : le32at data off = le32at data2 off2 := by
    rw [le32at_drop data off, le32at_drop data2 off2, h]
  have hslice : slice data (off + 4) (off + 4 + le32at data off * 2) =
      slice data2 (off2 + 4) (off2 + 4 + le32at data off * 2) := by
    unfold slice
    have e1 : data.drop (off + 4) = (data.drop off).drop 4 := by
      rw [List.drop_drop]
    have e2 : data2.drop (off2 + 4) = (data2.drop off2).drop 4 := by
      rw [List.drop_drop]
    rw [e1, e2, h]
    congr 1
    omega
  refine except_eq_of_ok_iff _ _
    (fun e he => readUtf16String_error data off e he)
    (fun e he => readUtf16String_error data2 off2 e he)
    (fun a => ?_)
  obtain ⟨s, n⟩ := a
  rw [readUtf16String_ok_iff, readUtf16String_ok_iff, ← hle, ← hslice]
  constructor
  · rintro ⟨c1, c2, c3, c4, c5⟩
    exact ⟨by omega, c2, by omega, c4, c5⟩
  · rintro ⟨c1, c2, c3, c4, c5⟩
    exact ⟨by omega, c2, by omega, c4, c5⟩

/-- Reading is unchanged when the buffers agree on a prefix containing the
whole read span. -/
theorem readUtf16String_take_eq (data data2 : ByteSeq) (m off : Nat)
    (s : PyStr) (n : Nat) (h : data.take m = data2.take m)
    (hm1 : m ≤ data.length) (hm2 : m ≤ data2.length)
    (hspan : off + n ≤ m) (hok : readUtf16String data off = .ok (s, n)) :
    readUtf16String data2 off = .ok (s, n) := by
  rw [readUtf16String_ok_iff] at hok ⊢
  obtain ⟨h1, h2, h3, h4, h5⟩ := hok
  have hle : le32at data off = le32at data2 off :=
    le32at_eq_of_take_eq data data2 m off h (by omega)
  refine ⟨by omega, by omega, by omega, ?_, by omega⟩
  rw [← hle]
  rw [← slice_eq_of_take_eq data data2 m (off + 4)
    (off + 4 + le32at data off * 2) h (by omega)]
  exact h4

/-! ## Slot-parser lemmas -/

/-- Inversion principle for one iteration of the slot-parsing loop. -/
theorem parseSlotsAux_succ_ok_iff (data : ByteSeq) (n offset idx : Nat)
    (sl : List ControlSurfaceSlot) (of : List SlotOffset) (fin : Nat) :
    parseSlotsAux data (n + 1) offset idx = .ok (sl, of, fin) ↔
      ∃ s1 n1 s2 n2 s3 n3 sl' of',
        readUtf16String data offset = .ok (s1, n1) ∧
        readUtf16String data (offset + n1) = .ok (s2, n2) ∧
        readUtf16String data (offset + n1 + n2) = .ok (s3, n3) ∧
        parseSlotsAux data n (offset + n1 + n2 + n3) (idx + 1) =
          .ok (sl', of', fin) ∧
        sl = ⟨idx, s1, s2, s3⟩ :: sl' ∧
        of = ⟨idx, offset, n1, offset + n1, n2, offset + n1 + n2, n3⟩ :: of' := by
  constructor
  · intro h
    rw [parseSlotsAux] at h
    cases hr1 : readUtf16String data offset with
    | error e => rw [hr1] at h; exact Except.noConfusion h
    | ok p1 =>
      obtain ⟨s1, n1⟩ := p1
      rw [hr1] at h
      dsimp only at h
      cases hr2 : readUtf16String data (offset + n1) with
      | error e => rw [hr2] at h; exact Except.noConfusion h
      | ok p2 =>
        obtain ⟨s2, n2⟩ := p2
        rw [hr2] at h
        dsimp only at h
        cases hr3 : readUtf16String data (offset + n1 + n2) with
        | error e => rw [hr3] at h; exact Except.noConfusion h
        | ok p3 =>
          obtain ⟨s3, n3⟩ := p3
          rw [hr3] at h
          dsimp only at h
          cases hrec : parseSlotsAux data n (offset + n1 + n2 + n3)
              (idx + 1) with
          | error e => rw [hrec] at h; exact Except.noConfusion h
          | ok prec =>
            obtain ⟨sl', of', fin'⟩ := prec
            rw [hrec] at h
            dsimp only at h
            simp only [Except.ok.injEq, Prod.mk.injEq] at h
            obtain ⟨hsl, hof, hfin⟩ := h
            exact ⟨s1, n1, s2, n2, s3, n3, sl', of', rfl, hr2, hr3,
              by rw [hrec, hfin], hsl.symm, hof.symm⟩
  · rintro ⟨s1, n1, s2, n2, s3, n3, sl', of', hr1, hr2, hr3, hrec, rfl, rfl⟩
    rw [parseSlotsAux, hr1]
    dsimp only
    rw [hr2]
    dsimp only
    rw [hr3]
    dsimp only
    rw [hrec]

/-- Any failure of the slot-parsing loop is a `formatError` (the base
`PreferencesParseError` raised by the codec). -/
theorem parseSlotsAux_error (data : ByteSeq) :
    ∀ n offset idx e, parseSlotsAux data n offset idx = .error e →
      e = .formatError := by
  intro n
  induction n with
  | zero => intro offset idx e h; exact Except.noConfusion h
  | succ n ih =>
    intro offset idx e h
    rw [parseSlotsAux] at h
    cases hr1 : readUtf16String data offset with
    | error e1 =>
      rw [hr1] at h
      cases h
      exact readUtf16String_error data offset _ hr1
    | ok p1 =>
      obtain ⟨s1, n1⟩ := p1
      rw [hr1] at h
      dsimp only at h
      cases hr2 : readUtf16String data (offset + n1) with
      | error e2 =>
        rw [hr2] at h
        cases h
        exact readUtf16String_error data (offset + n1) _ hr2
      | ok p2 =>
        obtain ⟨s2, n2⟩ := p2
        rw [hr2] at h
        dsimp only at h
        cases hr3 : readUtf16String data (offset + n1 + n2) with
        | error e3 =>
          rw [hr3] at h
          cases h
          exact readUtf16String_error data (offset + n1 + n2) _ hr3
        | ok p3 =>
          obtain ⟨s3, n3⟩ := p3
          rw [hr3] at h
          dsimp only at h
          cases hrec : parseSlotsAux data n (offset + n1 + n2 + n3)
              (idx + 1) with
          | error e4 =>
            rw [hrec] at h
            cases h
            exact ih (offset + n1 + n2 + n3) (idx + 1) _ hrec
          | ok prec =>
            obtain ⟨sl', of', fin'⟩ := prec
            rw [hrec] at h
            exact Except.noConfusion h

/-- Shape of a successful parse: `n` slots and `n` offset records, with
consecutive slot indices starting at `idx`. -/
theorem parseSlotsAux_shape (data : ByteSeq) :
    ∀ n offset idx sl of fin,
      parseSlotsAux data n offset idx = .ok (sl, of, fin) →
      sl.length = n ∧ of.length = n ∧
      ∀ i, i < n → (sl.getD i default).index = idx + i := by
  intro n
  induction n with
  | zero =>
    intro offset idx sl of fin h
    rw [parseSlotsAux] at h
    simp only [Except.ok.injEq, Prod.mk.injEq] at h
    obtain ⟨rfl, rfl, -⟩ := h
    exact ⟨rfl, rfl, fun i hi => absurd hi (by omega)⟩
  | succ n ih =>
    intro offset idx sl of fin h
    rw [parseSlotsAux_succ_ok_iff] at h
    obtain ⟨s1, n1, s2, n2, s3, n3, sl', of', -, -, -, hrec, rfl, rfl⟩ := h
    obtain ⟨hl1, hl2, hidx⟩ := ih _ _ sl' of' fin hrec
    refine ⟨by simp [hl1], by simp [hl2], fun i hi => ?_⟩
    cases i with
    | zero => simp
    | succ i =>
      simp only [List.getD_cons_succ]
      rw [hidx i (by omega)]
      omega

/-- The cursor never moves backwards. -/
theorem parseSlotsAux_le (data : ByteSeq) :
    ∀ n offset idx sl of fin,
      parseSlotsAux data n offset idx = .ok (sl, of, fin) → offset ≤ fin := by
  intro n
  induction n with
  | zero =>
    intro offset idx sl of fin h
    rw [parseSlotsAux] at h
    simp only [Except.ok.injEq, Prod.mk.injEq] at h
    omega
  | succ n ih =>
    intro offset idx sl of fin h
    rw [parseSlotsAux_succ_ok_iff] at h
    obtain ⟨s1, n1, s2, n2, s3, n3, sl', of', h1, h2, h3, hrec, rfl, rfl⟩ := h
    have := ih _ _ sl' of' fin hrec
    omega

/-- A successful parse splits: the first `a` records parse on their own,
and the remaining `b` continue from the intermediate cursor. -/
theorem parseSlotsAux_split (data : ByteSeq) :
    ∀ a b offset idx sl of fin,
      parseSlotsAux data (a + b) offset idx = .ok (sl, of, fin) →
      ∃ sl1 of1 mid sl2 of2,
        parseSlotsAux data a offset idx = .ok (sl1, of1, mid) ∧
        parseSlotsAux data b mid (idx + a) = .ok (sl2, of2, fin) ∧
        sl = sl1 ++ sl2 ∧ of = of1 ++ of2 := by
  intro a
  induction a with
  | zero =>
    intro b offset idx sl of fin h
    refine ⟨[], [], offset, sl, of, rfl, ?_, rfl, rfl⟩
    simpa using h
  | succ a ih =>
    intro b offset idx sl of fin h
    have hresh : a + 1 + b = (a + b) + 1 := by omega
    rw [hresh, parseSlotsAux_succ_ok_iff] at h
    obtain ⟨s1, n1, s2, n2, s3, n3, sl', of', h1, h2, h3, hrec, rfl, rfl⟩ := h
    obtain ⟨sl1, of1, mid, sl2, of2, ha, hb, rfl, rfl⟩ :=
      ih b _ (idx + 1) sl' of' fin hrec
    refine ⟨⟨idx, s1, s2, s3⟩ :: sl1,
      ⟨idx, offset, n1, offset + n1, n2, offset + n1 + n2, n3⟩ :: of1,
      mid, sl2, of2, ?_, ?_, rfl, rfl⟩
    · rw [parseSlotsAux_succ_ok_iff]
      exact ⟨s1, n1, s2, n2, s3, n3, sl1, of1, h1, h2, h3, ha, rfl, rfl⟩
    · have : idx + (a + 1) = idx + 1 + a := by omega
      rw [this]
      exact hb

/-- The slot-parsing loop depends only on the buffer suffix at its start
offset: equal suffixes give equal slot lists, sizes and relative cursors. -/
theorem parseSlotsAux_drop_eq (data data2 : ByteSeq) :
    ∀ n offset offset2 idx, data.drop offset = data2.drop offset2 →
      (∀ sl of fin, parseSlotsAux data n offset idx = .ok (sl, of, fin) →
        ∃ of2 fin2, parseSlotsAux data2 n offset2 idx = .ok (sl, of2, fin2) ∧
          fin - offset = fin2 - offset2) ∧
      (∀ e, parseSlotsAux data n offset idx = .error e →
        parseSlotsAux data2 n offset2 idx = .error e) := by
  intro n
  induction n with
  | zero =>
    intro offset offset2 idx h
    constructor
    · intro sl of fin hok
      rw [parseSlotsAux] at hok
      simp only [Except.ok.injEq, Prod.mk.injEq] at hok
      obtain ⟨rfl, rfl, rfl⟩ := hok
      exact ⟨[], offset2, rfl, by omega⟩
    · intro e he
      exact Except.noConfusion he
  | succ n ih =>
    intro offset offset2 idx h
    have hread1 : readUtf16String data offset = readUtf16String data2 offset2 :=
      readUtf16String_drop_eq data data2 offset offset2 h
    constructor
    · intro sl of fin hok
      rw [parseSlotsAux_succ_ok_iff] at hok
      obtain ⟨s1, n1, s2, n2, s3, n3, sl', of', h1, h2, h3, hrec, rfl, rfl⟩ :=
        hok
      have hd1 : data.drop (offset + n1) = data2.drop (offset2 + n1) := by
        rw [← List.drop_drop n1 offset data, ← List.drop_drop n1 offset2 data2,
          h]
      have hd2 : data.drop (offset + n1 + n2) =
          data2.drop (offset2 + n1 + n2) := by
        rw [← List.drop_drop n2 (offset + n1) data,
          ← List.drop_drop n2 (offset2 + n1) data2, hd1]
      have hd3 : data.drop (offset + n1 + n2 + n3) =
          data2.drop (offset2 + n1 + n2 + n3) := by
        rw [← List.drop_drop n3 (offset + n1 + n2) data,
          ← List.drop_drop n3 (offset2 + n1 + n2) data2, hd2]
      obtain ⟨of2, fin2, hrec2, hfin2⟩ :=
        (ih (offset + n1 + n2 + n3) (offset2 + n1 + n2 + n3) (idx + 1)
          hd3).1 sl' of' fin hrec
      refine ⟨⟨idx, offset2, n1, offset2 + n1, n2, offset2 + n1 + n2, n3⟩ ::
        of2, fin2, ?_, ?_⟩
      · rw [parseSlotsAux_succ_ok_iff]
        refine ⟨s1, n1, s2, n2, s3, n3, sl', of2, ?_, ?_, ?_, hrec2, rfl, rfl⟩
        · rw [← hread1]; exact h1
        · rw [← readUtf16String_drop_eq data data2 (offset + n1)
            (offset2 + n1) hd1]
          exact h2
        · rw [← readUtf16String_drop_eq data data2 (offset + n1 + n2)
            (offset2 + n1 + n2) hd2]
          exact h3
      · have hle := parseSlotsAux_le data n _ _ sl' of' fin hrec
        have hle2 := parseSlotsAux_le data2 n _ _ sl' of2 fin2 hrec2
        omega
    · intro e he
      rw [parseSlotsAux] at he
      rw [parseSlotsAux]
      cases hr1 : readUtf16String data offset with
      | error e1 =>
        rw [hr1] at he
        cases he
        rw [← hread1, hr1]
      | ok p1 =>
        obtain ⟨s1, n1⟩ := p1
        rw [hr1] at he
        dsimp only at he
        rw [← hread1, hr1]
        dsimp only
        have hd1 : data.drop (offset + n1) = data2.drop (offset2 + n1) := by
          rw [← List.drop_drop n1 offset data,
            ← List.drop_drop n1 offset2 data2, h]
        have hread2 := readUtf16String_drop_eq data data2 (offset + n1)
          (offset2 + n1) hd1
        cases hr2 : readUtf16String data (offset + n1) with
        | error e2 =>
          rw [hr2] at he
          cases he
          rw [← hread2, hr2]
        | ok p2 =>
          obtain ⟨s2, n2⟩ := p2
          rw [hr2] at he
          dsimp only at he
          rw [← hread2, hr2]
          dsimp only
          have hd2 : data.drop (offset + n1 + n2) =
              data2.drop (offset2 + n1 + n2) := by
            rw [← List.drop_drop n2 (offset + n1) data,
              ← List.drop_drop n2 (offset2 + n1) data2, hd1]
          have hread3 := readUtf16String_drop_eq data data2
            (offset + n1 + n2) (offset2 + n1 + n2) hd2
          cases hr3 : readUtf16String data (offset + n1 + n2) with
          | error e3 =>
            rw [hr3] at he
            cases he
            rw [← hread3, hr3]
          | ok p3 =>
            obtain ⟨s3, n3⟩ := p3
            rw [hr3] at he
            dsimp only at he
            rw [← hread3, hr3]
            dsimp only
            have hd3 : data.drop (offset + n1 + n2 + n3) =
                data2.drop (offset2 + n1 + n2 + n3) := by
              rw [← List.drop_drop n3 (offset + n1 + n2) data,
                ← List.drop_drop n3 (offset2 + n1 + n2) data2, hd2]
            cases hrec : parseSlotsAux data n (offset + n1 + n2 + n3)
                (idx + 1) with
            | error e4 =>
              rw [hrec] at he
              dsimp only at he
              cases he
              rw [(ih (offset + n1 + n2 + n3) (offset2 + n1 + n2 + n3)
                (idx + 1) hd3).2 _ hrec]
            | ok prec =>
              obtain ⟨sl', of', fin'⟩ := prec
              rw [hrec] at he
              exact Except.noConfusion he

/-- A successful parse whose final cursor stays within a shared prefix of
two buffers also succeeds, with identical results, on the second buffer. -/
theorem parseSlotsAux_take_eq (data data2 : ByteSeq) (m : Nat)
    (hta : data.take m = data2.take m) (hm1 : m ≤ data.length)
    (hm2 : m ≤ data2.length) :
    ∀ n offset idx sl of fin,
      parseSlotsAux data n offset idx = .ok (sl, of, fin) → fin ≤ m →
      parseSlotsAux data2 n offset idx = .ok (sl, of, fin) := by
  intro n
  induction n with
  | zero =>
    intro offset idx sl of fin h hfin
    rw [parseSlotsAux] at h ⊢
    exact h
  | succ n ih =>
    intro offset idx sl of fin h hfin
    rw [parseSlotsAux_succ_ok_iff] at h
    obtain ⟨s1, n1, s2, n2, s3, n3, sl', of', h1, h2, h3, hrec, rfl, rfl⟩ := h
    have hle := parseSlotsAux_le data n _ _ sl' of' fin hrec
    have hb1 := readUtf16String_bounds data offset s1 n1 h1
    have hb2 := readUtf16String_bounds data (offset + n1) s2 n2 h2
    have hb3 := readUtf16String_bounds data (offset + n1 + n2) s3 n3 h3
    rw [parseSlotsAux_succ_ok_iff]
    refine ⟨s1, n1, s2, n2, s3, n3, sl', of', ?_, ?_, ?_, ?_, rfl, rfl⟩
    · exact readUtf16String_take_eq data data2 m offset s1 n1 hta hm1 hm2
        (by omega) h1
    · exact readUtf16String_take_eq data data2 m (offset + n1) s2 n2 hta hm1
        hm2 (by omega) h2
    · exact readUtf16String_take_eq data data2 m (offset + n1 + n2) s3 n3 hta
        hm1 hm2 (by omega) h3
    · exact ih (offset + n1 + n2 + n3) (idx + 1) sl' of' fin hrec hfin

/-! ## Round-trip helpers for BMP strings -/

theorem strUnits_of_bmp (s : PyStr) (h : ∀ c ∈ s, c < 65536) :
    strUnits s = s := by
  induction s with
  | nil => rfl
  | cons c cs ih =>
    have hc : encodeCodePoint c = [c] := by
      unfold encodeCodePoint
      rw [if_pos (h c (by simp))]
    have : strUnits (c :: cs) = encodeCodePoint c ++ strUnits cs := by
      simp [strUnits]
    rw [this, hc, ih (fun x hx => h x (by simp [hx]))]
    rfl

theorem unitsToStr_of_low (s : List Nat) (h : ∀ c ∈ s, c < 55296) :
    unitsToStr s = some s := by
  induction s with
  | nil => rfl
  | cons c cs ih =>
    unfold unitsToStr
    rw [if_pos (Or.inl (h c (by simp))), ih (fun x hx => h x (by simp [hx]))]
    rfl

theorem le32at_le32_append (n : Nat) (rest : ByteSeq) (h : n < 4294967296) :
    le32at (le32 n ++ rest) 0 = n := by
  unfold le32at le32
  simp only [List.cons_append, List.getD_cons_zero, List.getD_cons_succ]
  omega

theorem unitsToBytes_lt (us : List Nat) : ∀ x ∈ unitsToBytes us, x < 256 := by
  induction us with
  | nil => simp [unitsToBytes]
  | cons u us ih =>
    intro x hx
    simp only [unitsToBytes, List.mem_cons] at hx
    rcases hx with rfl | rfl | hx
    · omega
    · omega
    · exact ih x hx

/-! ## Claim theorems: the string codec -/

/-- **C6** — For every ASCII string `s` of at most 1000 characters,
`_write_utf16_string(s)` succeeds, its output has length `4 + 2*len(s)`,
and `_read_utf16_string` on that output at offset 0 returns exactly `s`
with a consumed-byte count of `4 + 2*len(s)`. -/
theorem c6_encode_decode_roundtrip (s : PyStr) (hascii : ∀ c ∈ s, c < 128)
    (hlen : s.length ≤ 1000) :
    ∃ nb, writeUtf16String s = some nb ∧ nb.length = 4 + 2 * s.length ∧
      readUtf16String nb 0 = .ok (s, 4 + 2 * s.length) := by
  have hbmp : ∀ c ∈ s, c < 65536 := fun c hc => by have := hascii c hc; omega
  have hnosur : s.any isSurrogateCP = false := by
    rw [List.any_eq_false]
    intro c hc
    have := hascii c hc
    simp [isSurrogateCP]
    omega
  have henc : utf16leEncode s = some (unitsToBytes s) := by
    unfold utf16leEncode
    rw [hnosur]
    simp [strUnits_of_bmp s hbmp]
  have hwb : writeUtf16String s = some (le32 s.length ++ unitsToBytes s) := by
    unfold writeUtf16String
    rw [henc]
    rfl
  refine ⟨le32 s.length ++ unitsToBytes s, hwb, ?_, ?_⟩
  · simp [le32, unitsToBytes_length]
    omega
  · have hlelen : (le32 s.length).length = 4 := rfl
    have hulen := unitsToBytes_length s
    have hle32v : le32at (le32 s.length ++ unitsToBytes s) 0 = s.length :=
      le32at_le32_append s.length (unitsToBytes s) (by omega)
    rw [readUtf16String_ok_iff]
    refine ⟨?_, ?_, ?_, ?_, ?_⟩
    · simp [le32, unitsToBytes_length]
    · rw [hle32v]; exact hlen
    · rw [hle32v]
      have hub := unitsToBytes_length s
      have h4 : (le32 s.length).length = 4 := rfl
      simp only [List.length_append]
      omega
    · rw [hle32v]
      have hslice : slice (le32 s.length ++ unitsToBytes s) (0 + 4)
          (0 + 4 + s.length * 2) = unitsToBytes s := by
        unfold slice
        have hdrop : (le32 s.length ++ unitsToBytes s).drop 4 =
            unitsToBytes s := by
          rw [show (4 : Nat) = (le32 s.length).length from rfl,
            List.drop_left]
        rw [hdrop]
        have : 0 + 4 + s.length * 2 - (0 + 4) = s.length * 2 := by omega
        rw [this]
        exact List.take_of_length_le (by omega)
      rw [hslice]
      unfold utf16leDecode
      rw [bytesToUnits_unitsToBytes s hbmp]
      exact unitsToStr_of_low s (fun c hc => by have := hascii c hc; omega)
    · rw [hle32v]
      omega

/-- Witness for C6 at the concrete ASCII string `"None"`. -/
theorem c6_encode_decode_roundtrip_witness :
    ∃ nb, writeUtf16String NONE_STR = some nb ∧
      nb.length = 4 + 2 * NONE_STR.length ∧
      readUtf16String nb 0 = .ok (NONE_STR, 4 + 2 * NONE_STR.length) :=
  c6_encode_decode_roundtrip NONE_STR (by decide) (by decide)

/-- **C7** — `_read_utf16_string(data, offset)` raises `FormatError`
(`PreferencesParseError`) precisely when fewer than `4 + 2*L` bytes
remain at the offset (including an unreadable prefix), or the declared
length `L` exceeds the 1000-character ceiling, or the payload is not
valid UTF-16LE. -/
theorem c7_decode_error_iff (data : ByteSeq) (offset : Nat) :
    readUtf16String data offset = .error .formatError ↔
      data.length < offset + 4 ∨
      MAX_STRING_LENGTH < le32at data offset ∨
      data.length < offset + 4 + le32at data offset * 2 ∨
      utf16leDecode (slice data (offset + 4)
        (offset + 4 + le32at data offset * 2)) = none := by
  unfold readUtf16String
  by_cases h1 : offset + 4 > data.length
  · rw [if_pos h1]
    simp only [true_iff]
    exact Or.inl (by omega)
  · rw [if_neg h1]
    by_cases h2 : le32at data offset > MAX_STRING_LENGTH
    · rw [if_pos h2]
      simp only [true_iff]
      exact Or.inr (Or.inl (by omega))
    · rw [if_neg h2]
      by_cases h3 : offset + 4 + le32at data offset * 2 > data.length
      · rw [if_pos h3]
        simp only [true_iff]
        exact Or.inr (Or.inr (Or.inl (by omega)))
      · rw [if_neg h3]
        cases hdec : utf16leDecode (slice data (offset + 4)
            (offset + 4 + le32at data offset * 2)) with
        | none =>
          simp only [true_iff]
          exact Or.inr (Or.inr (Or.inr trivial))
        | some s' =>
          simp only [reduceCtorEq, false_iff]
          rintro (hc | hc | hc | hc)
          · omega
          · omega
          · omega
          · exact hc.elim

/-- Witness for C7: a buffer whose declared length prefix is 1001 raises
`FormatError` rather than decoding. -/
theorem c7_decode_error_iff_witness :
    readUtf16String (le32 1001 ++ List.replicate 2002 0) 0 =
      .error .formatError :=
  (c7_decode_error_iff (le32 1001 ++ List.replicate 2002 0) 0).mpr
    (Or.inr (Or.inl (by decide)))

/-- **C10** — For the one-character string `"𝄞"` (U+1D11E, outside the
Basic Multilingual Plane), `_write_utf16_string` writes a length prefix
of 1 (the code-point count) while the payload is a 4-byte surrogate
pair, so the record's total length is 8 ≠ 4 + 2*1; decoding the encoded
record at offset 0 then reads only the first code unit — a lone
surrogate — and raises `FormatError` instead of returning the string. -/
theorem c10_nonbmp_breaks_roundtrip :
    writeUtf16String [119070] =
      some [1, 0, 0, 0, 52, 216, 30, 221] ∧
    (le32at [1, 0, 0, 0, 52, 216, 30, 221] 0 = 1 ∧
      [(52 : Nat), 216, 30, 221].length = 4) ∧
    ([(1 : Nat), 0, 0, 0, 52, 216, 30, 221].length ≠ 4 + 2 * 1) ∧
    readUtf16String [1, 0, 0, 0, 52, 216, 30, 221] 0 = .error .formatError := by
  refine ⟨by decide, ⟨by decide, by decide⟩, by decide, by decide⟩

/-! ## Claim theorem: empty-slot selection -/

/-- **C9** — `find_empty_slot` returns the slot at the smallest list
position whose `script_name` is exactly `"None"` (the `is_empty`
predicate), and `none` exactly when no slot is empty. -/
theorem c9_find_empty_slot (slots : List ControlSurfaceSlot) :
    (∀ s, findEmptySlot slots = some s →
      ∃ i, i < slots.length ∧ slots.getD i default = s ∧
        s.is_empty = true ∧
        ∀ j, j < i → (slots.getD j default).is_empty = false) ∧
    (findEmptySlot slots = none ↔ ∀ s ∈ slots, s.is_empty = false) := by
  induction slots with
  | nil =>
    constructor
    · intro s h
      exact Option.noConfusion h
    · simp [findEmptySlot]
  | cons a rest ih =>
    constructor
    · intro s h
      unfold findEmptySlot at h
      by_cases ha : a.is_empty
      · rw [if_pos ha] at h
        obtain rfl := Option.some.injEq _ _ ▸ h
        exact ⟨0, by simp, by simp, by simpa using ha,
          fun j hj => absurd hj (by omega)⟩
      · rw [if_neg ha] at h
        obtain ⟨i, hi, hgd, hemp, hmin⟩ := ih.1 s h
        refine ⟨i + 1, by simpa using Nat.succ_lt_succ hi, by simpa using hgd,
          hemp, fun j hj => ?_⟩
        cases j with
        | zero => simpa using (Bool.not_eq_true _).mp ha
        | succ j =>
          simp only [List.getD_cons_succ]
          exact hmin j (by omega)
    · unfold findEmptySlot
      by_cases ha : a.is_empty
      · rw [if_pos ha]
        simp only [reduceCtorEq, false_iff]
        intro hall
        have := hall a (by simp)
        rw [this] at ha
        exact Bool.noConfusion ha
      · rw [if_neg ha]
        rw [ih.2]
        constructor
        · intro hall s hs
          rcases List.mem_cons.mp hs with rfl | hs'
          · exact (Bool.not_eq_true _).mp ha
          · exact hall s hs'
        · intro hall s hs
          exact hall s (by simp [hs])

/-- Fixture slots `[Foo, None, None, Bar, None, None, None]`. -/
def exampleSlots : List ControlSurfaceSlot :=
  [⟨0, [70, 111, 111], NONE_STR, NONE_STR⟩,
   ⟨1, NONE_STR, NONE_STR, NONE_STR⟩,
   ⟨2, NONE_STR, NONE_STR, NONE_STR⟩,
   ⟨3, [66, 97, 114], NONE_STR, NONE_STR⟩,
   ⟨4, NONE_STR, NONE_STR, NONE_STR⟩,
   ⟨5, NONE_STR, NONE_STR, NONE_STR⟩,
   ⟨6, NONE_STR, NONE_STR, NONE_STR⟩]

/-- Witness for C9: on `[Foo, None, None, Bar, None, None, None]` the
first empty slot is the one at index 1. -/
theorem c9_find_empty_slot_witness :
    (findEmptySlot exampleSlots).map ControlSurfaceSlot.index = some 1 ∧
    ∃ i, i < exampleSlots.length ∧
      exampleSlots.getD i default = ⟨1, NONE_STR, NONE_STR, NONE_STR⟩ ∧
      (ControlSurfaceSlot.mk 1 NONE_STR NONE_STR NONE_STR).is_empty = true ∧
      ∀ j, j < i → (exampleSlots.getD j default).is_empty = false :=
  ⟨by decide,
    (c9_find_empty_slot exampleSlots).1 ⟨1, NONE_STR, NONE_STR, NONE_STR⟩
      (by decide)⟩

/-! ## Marker-search characterization -/

theorem occursAt_bound (data m : ByteSeq) (k : Nat) (hm : m ≠ [])
    (h : occursAt data m k) : k + m.length ≤ data.length := by
  unfold occursAt at h
  have := h.length_le
  rw [List.length_drop] at this
  have hml : 1 ≤ m.length := by
    cases m with
    | nil => exact absurd rfl hm
    | cons a l => simp
  omega

theorem findSub_spec (data m : ByteSeq) (hm : m ≠ []) :
    ∀ tail i, tail = data.drop i →
      (∀ j, findSub m tail i = some j → i ≤ j ∧ occursAt data m j ∧
        ∀ k, i ≤ k → k < j → ¬occursAt data m k) ∧
      (findSub m tail i = none ↔ ∀ k, i ≤ k → ¬occursAt data m k) := by
  intro tail
  induction tail with
  | nil =>
    intro i htail
    have hnone : findSub m [] i = none := by
      unfold findSub
      rw [if_neg]
      intro hpre
      exact hm (List.prefix_nil.mp ( List.isPrefixOf_iff_prefix.mp hpre))
    constructor
    · intro j hj
      rw [hnone] at hj
      exact Option.noConfusion hj
    · rw [hnone]
      simp only [true_iff]
      intro k hk hocc
      have hdk : data.drop k = [] := by
        have : data.drop k = (data.drop i).drop (k - i) := by
          rw [List.drop_drop]
          congr 1
          omega
        rw [this, ← htail]
        simp
      unfold occursAt at hocc
      rw [hdk] at hocc
      exact hm (List.prefix_nil.mp hocc)
  | cons d ds ih =>
    intro i htail
    have hds : ds = data.drop (i + 1) := by
      have h1 : data.drop (i + 1) = (data.drop i).drop 1 := by
        rw [List.drop_drop]
      rw [h1, ← htail]
      rfl
    by_cases hpre : m.isPrefixOf (d :: ds)
    · have hocc : occursAt data m i := by
        unfold occursAt
        rw [← htail]
        exact List.isPrefixOf_iff_prefix.mp hpre
      have hsome : findSub m (d :: ds) i = some i := by
        unfold findSub
        rw [if_pos hpre]
      constructor
      · intro j hj
        rw [hsome] at hj
        obtain rfl := (Option.some.injEq _ _).mp hj
        exact ⟨le_refl _, hocc, fun k hk1 hk2 => absurd (lt_of_le_of_lt hk1 hk2)
          (lt_irrefl _)⟩
      · rw [hsome]
        simp only [reduceCtorEq, false_iff, not_forall]
        exact ⟨i, le_refl _, by simp [hocc]⟩
    · have hstep : findSub m (d :: ds) i = findSub m ds (i + 1) := by
        rw [show findSub m (d :: ds) i =
          if m.isPrefixOf (d :: ds) then some i else findSub m ds (i + 1)
          from rfl, if_neg hpre]
      have hnocc : ¬occursAt data m i := by
        unfold occursAt
        rw [← htail]
        intro hp
        exact hpre ( List.isPrefixOf_iff_prefix.mpr hp)
      obtain ⟨ih1, ih2⟩ := ih (i + 1) hds
      constructor
      · intro j hj
        rw [hstep] at hj
        obtain ⟨hj1, hj2, hj3⟩ := ih1 j hj
        refine ⟨by omega, hj2, fun k hk1 hk2 => ?_⟩
        by_cases hk : k = i
        · subst hk
          exact hnocc
        · exact hj3 k (by omega) hk2
      · rw [hstep, ih2]
        constructor
        · intro hall k hk hocc
          by_cases hki : k = i
          · subst hki
            exact hnocc hocc
          · exact hall k (by omega) hocc
        · intro hall k hk
          exact hall k (by omega)

theorem pyFind_spec (data m : ByteSeq) (hm : m ≠ []) (start : Nat) :
    (∀ j, pyFind data m start = some j → start ≤ j ∧ occursAt data m j ∧
      ∀ k, start ≤ k → k < j → ¬occursAt data m k) ∧
    (pyFind data m start = none ↔ ∀ k, start ≤ k → ¬occursAt data m k) :=
  findSub_spec data m hm (data.drop start) start rfl

theorem findLastMarkerLoop_spec (data m : ByteSeq) (hm : m ≠ []) :
    ∀ fuel idx last, data.length + 1 ≤ idx + fuel →
      (∀ l, last = some l → occursAt data m l) →
      (∀ k, k < idx → occursAt data m k → ∃ l, last = some l ∧ k ≤ l) →
      (findLastMarkerLoop data m fuel idx last = none ↔
        ∀ k, ¬occursAt data m k) ∧
      (∀ j, findLastMarkerLoop data m fuel idx last = some j →
        occursAt data m j ∧ ∀ k, occursAt data m k → k ≤ j) := by
  intro fuel
  induction fuel with
  | zero =>
    intro idx last hfuel hlast1 hlast2
    have hnone : ∀ k, occursAt data m k → k < idx := by
      intro k hk
      have := occursAt_bound data m k hm hk
      have hml : 1 ≤ m.length := by
        cases m with
        | nil => exact absurd rfl hm
        | cons a l => simp
      omega
    rw [findLastMarkerLoop]
    constructor
    · constructor
      · intro hl k hk
        obtain ⟨l, hls, -⟩ := hlast2 k (hnone k hk) hk
        rw [hls] at hl
        exact Option.noConfusion hl
      · intro hno
        cases hl : last with
        | none => rfl
        | some l => exact absurd (hlast1 l hl) (hno l)
    · intro j hj
      refine ⟨hlast1 j hj, fun k hk => ?_⟩
      obtain ⟨l, hls, hkl⟩ := hlast2 k (hnone k hk) hk
      rw [hj] at hls
      obtain rfl := (Option.some.injEq _ _).mp hls.symm
      exact hkl
  | succ fuel ih =>
    intro idx last hfuel hlast1 hlast2
    cases hfind : pyFind data m idx with
    | none =>
      have hred : findLastMarkerLoop data m (fuel + 1) idx last = last := by
        rw [findLastMarkerLoop, hfind]
      rw [hred]
      have hnoat : ∀ k, idx ≤ k → ¬occursAt data m k :=
        (pyFind_spec data m hm idx).2.mp hfind
      constructor
      · constructor
        · intro hl k hk
          by_cases hki : k < idx
          · obtain ⟨l, hls, -⟩ := hlast2 k hki hk
            rw [hls] at hl
            exact Option.noConfusion hl
          · exact hnoat k (by omega) hk
        · intro hno
          cases hl : last with
          | none => rfl
          | some l => exact absurd (hlast1 l hl) (hno l)
      · intro j hj
        refine ⟨hlast1 j hj, fun k hk => ?_⟩
        by_cases hki : k < idx
        · obtain ⟨l, hls, hkl⟩ := hlast2 k hki hk
          rw [hj] at hls
          obtain rfl := (Option.some.injEq _ _).mp hls.symm
          exact hkl
        · exact absurd hk (hnoat k (by omega))
    | some j =>
      have hred : findLastMarkerLoop data m (fuel + 1) idx last =
          findLastMarkerLoop data m fuel (j + 1) (some j) := by
        rw [findLastMarkerLoop, hfind]
      rw [hred]
      obtain ⟨hj1, hj2, hj3⟩ := (pyFind_spec data m hm idx).1 j hfind
      have hjb := occursAt_bound data m j hm hj2
      have hml : 1 ≤ m.length := by
        cases m with
        | nil => exact absurd rfl hm
        | cons a l => simp
      refine ih (j + 1) (some j) (by omega) ?_ ?_
      · intro l hl
        obtain rfl := (Option.some.injEq _ _).mp hl
        exact hj2
      · intro k hk hocc
        exact ⟨j, rfl, by omega⟩

/-! ## Claim theorem: last-marker search -/

/-- **C5** — `_find_last_marker` searches the whole buffer and returns
the greatest byte offset at which the marker occurs (overlapping
occurrences included); when the marker occurs nowhere it reports no
offset, upon which the anchor locator raises
`ControlSurfaceSlotsNotFoundError` — also for buffers whose magic header
is valid. -/
theorem c5_find_last_marker (data : ByteSeq) :
    (findLastMarker data MIDI_OUT_DEVICE_PREFS_MARKER = none ↔
      ∀ k, ¬occursAt data MIDI_OUT_DEVICE_PREFS_MARKER k) ∧
    (∀ j, findLastMarker data MIDI_OUT_DEVICE_PREFS_MARKER = some j →
      occursAt data MIDI_OUT_DEVICE_PREFS_MARKER j ∧
      ∀ k, occursAt data MIDI_OUT_DEVICE_PREFS_MARKER k → k ≤ j) ∧
    (findLastMarker data MIDI_OUT_DEVICE_PREFS_MARKER = none →
      findControlSurfaceStart data = .error .slotsNotFound) := by
  have hm : MIDI_OUT_DEVICE_PREFS_MARKER ≠ [] := by decide
  obtain ⟨h1, h2⟩ := findLastMarkerLoop_spec data MIDI_OUT_DEVICE_PREFS_MARKER
    hm (data.length + 2) 0 none (by omega)
    (fun l hl => Option.noConfusion hl)
    (fun k hk _ => absurd hk (by omega))
  exact ⟨h1, h2, fun hnone => by
    unfold findControlSurfaceStart
    rw [hnone]⟩

/-- Witness for C5: a buffer with a valid magic header but no marker has
no occurrence, `_find_last_marker` reports none, and the locator (and the
whole parse) fails with `SlotsNotFoundError`. -/
theorem c5_find_last_marker_witness :
    findLastMarker (MAGIC_HEADER ++ [1, 2, 3])
        MIDI_OUT_DEVICE_PREFS_MARKER = none ∧
    findControlSurfaceStart (MAGIC_HEADER ++ [1, 2, 3]) =
      .error .slotsNotFound ∧
    parsePreferences (MAGIC_HEADER ++ [1, 2, 3]) = .error .slotsNotFound := by
  have h1 : findLastMarker (MAGIC_HEADER ++ [1, 2, 3])
      MIDI_OUT_DEVICE_PREFS_MARKER = none := by decide
  exact ⟨h1, (c5_find_last_marker (MAGIC_HEADER ++ [1, 2, 3])).2.2 h1,
    by decide⟩

/-! ## Zero-padding scan characterization -/

theorem findZeroPaddingLoop_spec (data : ByteSeq) :
    ∀ fuel offset, data.length - 8 ≤ offset + fuel →
      (∀ z, findZeroPaddingLoop data fuel offset = some z →
        offset ≤ z ∧ z < data.length - 8 ∧ zeroRunAt data z ∧
        ∀ q, offset ≤ q → q < z → ¬zeroRunAt data q) ∧
      (findZeroPaddingLoop data fuel offset = none ↔
        ∀ q, offset ≤ q → q < data.length - 8 → ¬zeroRunAt data q) := by
  intro fuel
  induction fuel with
  | zero =>
    intro offset hfuel
    rw [findZeroPaddingLoop]
    refine ⟨fun z hz => Option.noConfusion hz, ?_⟩
    simp only [true_iff]
    intro q hq1 hq2
    omega
  | succ fuel ih =>
    intro offset hfuel
    by_cases hcond : offset < data.length - 8
    · by_cases hrun : slice data offset (offset + 8) = List.replicate 8 0
      · have hred : findZeroPaddingLoop data (fuel + 1) offset = some offset := by
          rw [findZeroPaddingLoop, if_pos hcond, if_pos hrun]
        rw [hred]
        have hzr : zeroRunAt data offset := by
          unfold zeroRunAt
          unfold slice at hrun
          have : offset + 8 - offset = 8 := by omega
          rw [this] at hrun
          exact hrun
        refine ⟨fun z hz => ?_, ?_⟩
        · obtain rfl := (Option.some.injEq _ _).mp hz
          exact ⟨le_refl _, hcond, hzr, fun q h1 h2 => absurd (by omega : q < q)
            (lt_irrefl q)⟩
        · simp only [reduceCtorEq, false_iff, not_forall]
          exact ⟨offset, le_refl _, hcond, by simp [hzr]⟩
      · have hred : findZeroPaddingLoop data (fuel + 1) offset =
            findZeroPaddingLoop data fuel (offset + 1) := by
          rw [findZeroPaddingLoop, if_pos hcond, if_neg hrun]
        rw [hred]
        have hnrun : ¬zeroRunAt data offset := by
          unfold zeroRunAt
          unfold slice at hrun
          have : offset + 8 - offset = 8 := by omega
          rw [this] at hrun
          exact hrun
        obtain ⟨ih1, ih2⟩ := ih (offset + 1) (by omega)
        refine ⟨fun z hz => ?_, ?_⟩
        · obtain ⟨h1, h2, h3, h4⟩ := ih1 z hz
          refine ⟨by omega, h2, h3, fun q hq1 hq2 => ?_⟩
          by_cases hqo : q = offset
          · subst hqo
            exact hnrun
          · exact h4 q (by omega) hq2
        · rw [ih2]
          constructor
          · intro hall q hq1 hq2
            by_cases hqo : q = offset
            · subst hqo
              exact hnrun
            · exact hall q (by omega) hq2
          · intro hall q hq1 hq2
            exact hall q (by omega) hq2
    · have hred : findZeroPaddingLoop data (fuel + 1) offset = none := by
        rw [findZeroPaddingLoop, if_neg hcond]
      rw [hred]
      refine ⟨fun z hz => Option.noConfusion hz, ?_⟩
      simp only [true_iff]
      intro q hq1 hq2
      omega

/-! ## Claim theorems: the zero-padding scan (C4) -/

/-- Counterexample for C4 as stated: in the buffer `marker ++ 8 zeroes`
the 8-zero run occupying the final 8 bytes begins at offset 24, at the
scan's start position, yet the scan reports no padding and the anchor
locator raises `ControlSurfaceSlotsNotFoundError`. -/
theorem c4_counterexample :
    zeroRunAt (MIDI_OUT_DEVICE_PREFS_MARKER ++ List.replicate 8 0) 24 ∧
    24 = 0 + MIDI_OUT_DEVICE_PREFS_MARKER.length ∧
    occursAt (MIDI_OUT_DEVICE_PREFS_MARKER ++ List.replicate 8 0)
      MIDI_OUT_DEVICE_PREFS_MARKER 0 ∧
    findZeroPadding (MIDI_OUT_DEVICE_PREFS_MARKER ++ List.replicate 8 0)
      24 = none ∧
    findControlSurfaceStart (MIDI_OUT_DEVICE_PREFS_MARKER ++
      List.replicate 8 0) = .error .slotsNotFound := by
  refine ⟨by decide, by decide, by decide, by decide, by decide⟩

/-- **C4 (amended)** — Starting just after the marker's last occurrence,
the scan finds the first (lowest) byte offset *strictly before*
`len(data) - 8` at which at least 8 consecutive zero bytes begin, and it
reports no padding — upon which `SlotsNotFoundError` is raised — exactly
when no such offset exists in that range; a run whose 8 bytes are the
final 8 bytes of the buffer is **not** found, because the loop condition
`offset < len(data) - 8` stops one position short of it. -/
theorem c4_zero_padding_scan (data : ByteSeq) (start : Nat) :
    (∀ z, findZeroPadding data start = some z →
      start ≤ z ∧ z < data.length - 8 ∧ zeroRunAt data z ∧
      ∀ q, start ≤ q → q < z → ¬zeroRunAt data q) ∧
    (findZeroPadding data start = none ↔
      ∀ q, start ≤ q → q < data.length - 8 → ¬zeroRunAt data q) :=
  findZeroPaddingLoop_spec data (data.length + 1) start (by omega)

/-- Witness for C4 (amended): in `marker ++ [1, 2] ++ 8 zeroes ++ [7]`
the scan from 24 finds the run at offset 26 (and offsets 24, 25 do not
begin a run). -/
theorem c4_zero_padding_scan_witness :
    findZeroPadding (MIDI_OUT_DEVICE_PREFS_MARKER ++ [1, 2] ++
      List.replicate 8 0 ++ [7]) 24 = some 26 ∧
    zeroRunAt (MIDI_OUT_DEVICE_PREFS_MARKER ++ [1, 2] ++
      List.replicate 8 0 ++ [7]) 26 ∧
    ¬zeroRunAt (MIDI_OUT_DEVICE_PREFS_MARKER ++ [1, 2] ++
      List.replicate 8 0 ++ [7]) 25 := by
  have h := (c4_zero_padding_scan (MIDI_OUT_DEVICE_PREFS_MARKER ++ [1, 2] ++
    List.replicate 8 0 ++ [7]) 24).1 26 (by decide)
  exact ⟨by decide, h.2.2.1, h.2.2.2 25 (by decide) (by decide)⟩

/-- Per-record characterization of a successful slot parse: each record's
three fields are read at consecutive offsets, the cursor advancing by
each read's consumed byte count. -/
theorem parseSlotsAux_chain (data : ByteSeq) :
    ∀ n offset idx sl of fin,
      parseSlotsAux data n offset idx = .ok (sl, of, fin) →
      (0 < n → (of.getD 0 default).script_name_offset = offset) ∧
      (∀ i, i < n →
        readUtf16String data ((of.getD i default).script_name_offset) =
          .ok ((sl.getD i default).script_name,
            (of.getD i default).script_name_size) ∧
        (of.getD i default).input_device_offset =
          (of.getD i default).script_name_offset +
            (of.getD i default).script_name_size ∧
        readUtf16String data ((of.getD i default).input_device_offset) =
          .ok ((sl.getD i default).input_device,
            (of.getD i default).input_device_size) ∧
        (of.getD i default).output_device_offset =
          (of.getD i default).input_device_offset +
            (of.getD i default).input_device_size ∧
        readUtf16String data ((of.getD i default).output_device_offset) =
          .ok ((sl.getD i default).output_device,
            (of.getD i default).output_device_size)) ∧
      (∀ i, i + 1 < n →
        (of.getD (i + 1) default).script_name_offset =
          (of.getD i default).output_device_offset +
            (of.getD i default).output_device_size) := by
  intro n
  induction n with
  | zero =>
    intro offset idx sl of fin h
    exact ⟨fun hc => absurd hc (by omega),
      fun i hi => absurd hi (by omega),
      fun i hi => absurd hi (by omega)⟩
  | succ n ih =>
    intro offset idx sl of fin h
    rw [parseSlotsAux_succ_ok_iff] at h
    obtain ⟨s1, n1, s2, n2, s3, n3, sl', of', h1, h2, h3, hrec, rfl, rfl⟩ := h
    obtain ⟨ihstart, ihreads, ihchain⟩ := ih _ _ sl' of' fin hrec
    refine ⟨fun _ => rfl, fun i hi => ?_, fun i hi => ?_⟩
    · cases i with
      | zero => exact ⟨h1, rfl, h2, rfl, h3⟩
      | succ i =>
        simp only [List.getD_cons_succ]
        exact ihreads i (by omega)
    · cases i with
      | zero =>
        simp only [List.getD_cons_succ, List.getD_cons_zero]
        rw [ihstart (by omega)]
      | succ i =>
        simp only [List.getD_cons_succ]
        exact ihchain i (by omega)

/-! ## Claim theorem: the slot parser (C8) -/

/-- **C8** — `_parse_control_surface_slots` either returns exactly 7
slots with indices 0..6, each decoded as three consecutive
length-prefixed strings (script, input, output) with the cursor advanced
by each record's consumed byte count and the first record at the given
start offset — or raises `FormatError` (so a partial slot list is never
returned). -/
theorem c8_parse_slots (data : ByteSeq) (start : Nat) :
    (∀ sl of, parseControlSurfaceSlots data start = .ok (sl, of) →
      sl.length = 7 ∧ of.length = 7 ∧
      (∀ i, i < 7 → (sl.getD i default).index = i) ∧
      (0 < 7 → (of.getD 0 default).script_name_offset = start) ∧
      (∀ i, i < 7 →
        readUtf16String data ((of.getD i default).script_name_offset) =
          .ok ((sl.getD i default).script_name,
            (of.getD i default).script_name_size) ∧
        (of.getD i default).input_device_offset =
          (of.getD i default).script_name_offset +
            (of.getD i default).script_name_size ∧
        readUtf16String data ((of.getD i default).input_device_offset) =
          .ok ((sl.getD i default).input_device,
            (of.getD i default).input_device_size) ∧
        (of.getD i default).output_device_offset =
          (of.getD i default).input_device_offset +
            (of.getD i default).input_device_size ∧
        readUtf16String data ((of.getD i default).output_device_offset) =
          .ok ((sl.getD i default).output_device,
            (of.getD i default).output_device_size)) ∧
      (∀ i, i + 1 < 7 →
        (of.getD (i + 1) default).script_name_offset =
          (of.getD i default).output_device_offset +
            (of.getD i default).output_device_size)) ∧
    (∀ e, parseControlSurfaceSlots data start = .error e →
      e = .formatError) := by
  constructor
  · intro sl of h
    unfold parseControlSurfaceSlots at h
    cases haux : parseSlotsAux data NUM_CONTROL_SURFACE_SLOTS start 0 with
    | error e =>
      rw [haux] at h
      exact Except.noConfusion h
    | ok r =>
      obtain ⟨sl0, of0, fin0⟩ := r
      rw [haux] at h
      dsimp only at h
      simp only [Except.ok.injEq, Prod.mk.injEq] at h
      obtain ⟨rfl, rfl⟩ := h
      obtain ⟨hl1, hl2, hidx⟩ :=
        parseSlotsAux_shape data NUM_CONTROL_SURFACE_SLOTS start 0 sl0 of0
          fin0 haux
      obtain ⟨hstart, hreads, hchain⟩ :=
        parseSlotsAux_chain data NUM_CONTROL_SURFACE_SLOTS start 0 sl0 of0
          fin0 haux
      exact ⟨hl1, hl2, fun i hi => by simpa using hidx i hi, hstart, hreads,
        hchain⟩
  · intro e h
    unfold parseControlSurfaceSlots at h
    cases haux : parseSlotsAux data NUM_CONTROL_SURFACE_SLOTS start 0 with
    | error e0 =>
      rw [haux] at h
      dsimp only at h
      obtain rfl := (Except.error.injEq _ _).mp h
      exact parseSlotsAux_error data NUM_CONTROL_SURFACE_SLOTS start 0 _ haux
    | ok r =>
      obtain ⟨sl0, of0, fin0⟩ := r
      rw [haux] at h
      exact Except.noConfusion h

set_option maxRecDepth 100000 in
/-- Witness for C8 on the valid fixture: the parse succeeds with 7 slots
whose first record sits at offset 40, and the characterization applies. -/
theorem c8_parse_slots_witness :
    ∃ sl of, parseControlSurfaceSlots fixtureA 40 = .ok (sl, of) ∧
      sl.length = 7 ∧ (∀ i, i < 7 → (sl.getD i default).index = i) := by
  have hpar : (parseControlSurfaceSlots fixtureA 40).isOk = true := by decide
  cases h : parseControlSurfaceSlots fixtureA 40 with
  | error e => rw [h] at hpar; exact Bool.noConfusion hpar
  | ok r =>
    obtain ⟨sl, of⟩ := r
    obtain ⟨hl1, -, hidx, -⟩ := (c8_parse_slots fixtureA 40).1 sl of h
    exact ⟨sl, of, rfl, hl1, hidx⟩

/-! ## Writer unfolding lemmas -/

/-- Whenever `set_control_surface` reaches the physical write (target
resolved, encoding succeeded), the bytes on disk afterwards are the
freshly read file bytes spliced at the *cached* parser's offsets, and the
backup holds the pre-write bytes. -/
theorem setControlSurface_disk (w : WriterState) (name : PyStr)
    (idx : Option Nat) (target : Nat) (nb : ByteSeq)
    (htarget : findTargetSlot w.parser idx = .ok target)
    (henc : writeUtf16String name = some nb) :
    (setControlSurface w name idx true).1.disk =
      spliceData w.disk
        (w.parser.slot_offsets.getD target default).script_name_offset
        (w.parser.slot_offsets.getD target default).script_name_size nb ∧
    (setControlSurface w name idx true).1.backupDisk = some w.disk := by
  unfold setControlSurface
  rw [htarget]
  dsimp only
  rw [henc]
  dsimp only
  cases hp : parsePreferences (spliceData w.disk
      (w.parser.slot_offsets.getD target default).script_name_offset
      (w.parser.slot_offsets.getD target default).script_name_size nb) with
  | error e => exact ⟨rfl, rfl⟩
  | ok p' =>
    dsimp only
    by_cases hs : (p'.slots.getD target default).script_name = name
    · rw [if_pos hs]
      exact ⟨rfl, rfl⟩
    · rw [if_neg hs]
      exact ⟨rfl, rfl⟩

/-! ## Claim theorems: stale offsets in the writer (C1) -/

/-- The parser state `PreferencesWriter.__init__` caches when
constructed on `fixtureA`. -/
def cachedParserA : ParserState :=
  (parsePreferences fixtureA).toOption.getD default

/-- A writer constructed on `fixtureA` whose file was then externally
replaced by `fixtureB` (one extra padding byte) before the
`set_control_surface` call: the cached parser still describes
`fixtureA`. -/
def staleWriter : WriterState :=
  ⟨"Preferences.cfg", fixtureB, none, cachedParserA⟩

set_option maxRecDepth 1000000 in
set_option maxHeartbeats 4000000 in
/-- Counterexample for C1 as stated: in a `set_control_surface` call the
splice offset comes from the parser cached at construction
(`self._parser.get_slot_offset`), not from re-parsing the freshly read
bytes.  Writer built on `fixtureA` (slot 0 field at offset 40); the file
on disk now holds `fixtureB`, whose fresh parse puts slot 0's field at
offset 41; the call nevertheless splices at 40, producing different
bytes than a splice at the freshly derived offset would. -/
theorem c1_counterexample :
    ((parsePreferences fixtureA).toOption.map
      (fun p => ((p.slot_offsets.getD 0 default).script_name_offset,
        (p.slot_offsets.getD 0 default).script_name_size))) =
      some (40, 12) ∧
    ((parsePreferences staleWriter.disk).toOption.map
      (fun p => ((p.slot_offsets.getD 0 default).script_name_offset,
        (p.slot_offsets.getD 0 default).script_name_size))) =
      some (41, 12) ∧
    (setControlSurface staleWriter strX (some 0) true).1.disk =
      spliceData fixtureB 40 12 [1, 0, 0, 0, 88, 0] ∧
    spliceData fixtureB 40 12 [1, 0, 0, 0, 88, 0] ≠
      spliceData fixtureB 41 12 [1, 0, 0, 0, 88, 0] := by
  refine ⟨by decide, by decide, by decide, by decide⟩

/-- **C1 (amended)** — The splice offset and size are taken from the
writer's cached parser state (captured at construction or at the last
verified write); only the data bytes themselves are re-read.  Whenever
the bytes on disk still equal the bytes that parser state was parsed
from — i.e. no external modification happened since — those cached
offsets coincide with the ones derivable by re-parsing the freshly read
buffer, and the splice lands where a fresh derivation would put it. -/
theorem c1_amended (w : WriterState) (name : PyStr) (idx : Option Nat)
    (target : Nat) (nb : ByteSeq)
    (hcons : parsePreferences w.disk = .ok w.parser)
    (htarget : findTargetSlot w.parser idx = .ok target)
    (henc : writeUtf16String name = some nb) :
    w.parser.slot_offsets =
      ((parsePreferences w.disk).toOption.getD default).slot_offsets ∧
    (setControlSurface w name idx true).1.disk =
      spliceData w.disk
        ((((parsePreferences w.disk).toOption.getD default).slot_offsets.getD
          target default).script_name_offset)
        ((((parsePreferences w.disk).toOption.getD default).slot_offsets.getD
          target default).script_name_size) nb := by
  have hfresh : ((parsePreferences w.disk).toOption.getD default) =
      w.parser := by
    rw [hcons]
    rfl
  rw [hfresh]
  exact ⟨rfl, (setControlSurface_disk w name idx target nb htarget henc).1⟩

set_option maxRecDepth 1000000 in
set_option maxHeartbeats 4000000 in
/-- Witness for C1 (amended): a consistent writer on `fixtureA` writing
`"X"` to slot 0 splices at the freshly derivable offset 40. -/
theorem c1_amended_witness :
    (setControlSurface ⟨"Preferences.cfg", fixtureA, none, cachedParserA⟩
        strX (some 0) true).1.disk =
      spliceData fixtureA
        ((((parsePreferences fixtureA).toOption.getD
          default).slot_offsets.getD 0 default).script_name_offset)
        ((((parsePreferences fixtureA).toOption.getD
          default).slot_offsets.getD 0 default).script_name_size)
        [1, 0, 0, 0, 88, 0] :=
  (c1_amended ⟨"Preferences.cfg", fixtureA, none, cachedParserA⟩ strX
    (some 0) 0 [1, 0, 0, 0, 88, 0] (by decide) (by decide) (by decide)).2

/-! ## Claim theorem: verification failure (C2) -/

/-- **C2** — When a `set_control_surface` call reaches the physical
write and the re-parse of the just-written bytes fails or yields a slot
whose script name differs from the requested one, the call raises
`PreferencesWriteError` carrying the backup path in its message, the
modified (spliced) bytes stay on disk, and no rollback happens — the
pre-write bytes survive only in the backup. -/
theorem c2_verify_failure (w : WriterState) (name : PyStr)
    (idx : Option Nat) (target : Nat) (nb : ByteSeq)
    (htarget : findTargetSlot w.parser idx = .ok target)
    (henc : writeUtf16String name = some nb)
    (hfail : ∀ p', parsePreferences (spliceData w.disk
        (w.parser.slot_offsets.getD target default).script_name_offset
        (w.parser.slot_offsets.getD target default).script_name_size nb) =
          .ok p' → (p'.slots.getD target default).script_name ≠ name) :
    (setControlSurface w name idx true).2 =
      .error (.writeError w.backup_path) ∧
    (setControlSurface w name idx true).1.disk =
      spliceData w.disk
        (w.parser.slot_offsets.getD target default).script_name_offset
        (w.parser.slot_offsets.getD target default).script_name_size nb ∧
    (setControlSurface w name idx true).1.backupDisk = some w.disk := by
  have hdisk := setControlSurface_disk w name idx target nb htarget henc
  refine ⟨?_, hdisk.1, hdisk.2⟩
  unfold setControlSurface
  rw [htarget]
  dsimp only
  rw [henc]
  dsimp only
  cases hp : parsePreferences (spliceData w.disk
      (w.parser.slot_offsets.getD target default).script_name_offset
      (w.parser.slot_offsets.getD target default).script_name_size nb) with
  | error e => rfl
  | ok p' =>
    dsimp only
    rw [if_neg (hfail p' hp)]

set_option maxRecDepth 1000000 in
set_option maxHeartbeats 4000000 in
/-- Witness for C2: writing the one-character non-BMP string `"𝄞"`-like
`U+10000` to slot 0 of the fixture file passes encoding but leaves a
lone surrogate in the written record, so the verification re-parse fails
and the call raises `PreferencesWriteError` naming
`Preferences.cfg.backup`, leaving the spliced bytes on disk and the
original only in the backup. -/
theorem c2_verify_failure_witness :
    (setControlSurface ⟨"Preferences.cfg", fixtureA, none, cachedParserA⟩
        [65536] (some 0) true).2 =
      .error (.writeError "Preferences.cfg.backup") ∧
    (setControlSurface ⟨"Preferences.cfg", fixtureA, none, cachedParserA⟩
        [65536] (some 0) true).1.disk =
      spliceData fixtureA 40 12 [1, 0, 0, 0, 0, 216, 0, 220] ∧
    (setControlSurface ⟨"Preferences.cfg", fixtureA, none, cachedParserA⟩
        [65536] (some 0) true).1.backupDisk = some fixtureA := by
  have hp : parsePreferences (spliceData fixtureA 40 12
      [1, 0, 0, 0, 0, 216, 0, 220]) = .error .formatError := by decide
  have hoff : (cachedParserA.slot_offsets.getD 0 default).script_name_offset
      = 40 := by decide
  have hsz : (cachedParserA.slot_offsets.getD 0 default).script_name_size
      = 12 := by decide
  have h := c2_verify_failure
    ⟨"Preferences.cfg", fixtureA, none, cachedParserA⟩ [65536] (some 0) 0
    [1, 0, 0, 0, 0, 216, 0, 220] (by decide) (by decide)
    (fun p' hok => by
      rw [show (⟨"Preferences.cfg", fixtureA, none,
        cachedParserA⟩ : WriterState).disk = fixtureA from rfl, hoff, hsz]
        at hok
      rw [hp] at hok
      exact Except.noConfusion hok)
  rw [show (⟨"Preferences.cfg", fixtureA, none,
    cachedParserA⟩ : WriterState).disk = fixtureA from rfl, hoff, hsz] at h
  exact h

/-! ## Splice and encode inversion lemmas -/

theorem writeUtf16String_some_inv (name : PyStr) (nb : ByteSeq)
    (h : writeUtf16String name = some nb) :
    nb = le32 name.length ++ unitsToBytes (strUnits name) ∧
    name.any isSurrogateCP = false ∧
    nb.length = 4 + 2 * (strUnits name).length := by
  unfold writeUtf16String utf16leEncode at h
  by_cases hs : name.any isSurrogateCP
  · rw [if_pos hs] at h
    exact Option.noConfusion h
  · rw [if_neg hs] at h
    simp only [Option.map_some', Option.some.injEq] at h
    refine ⟨h.symm, by simpa using hs, ?_⟩
    rw [← h]
    simp [le32, unitsToBytes_length]
    omega

theorem writeUtf16String_lt (name : PyStr) (nb : ByteSeq)
    (h : writeUtf16String name = some nb) : ∀ x ∈ nb, x < 256 := by
  obtain ⟨rfl, -, -⟩ := writeUtf16String_some_inv name nb h
  intro x hx
  rcases List.mem_append.mp hx with hx | hx
  · unfold le32 at hx
    simp only [List.mem_cons, List.not_mem_nil, or_false] at hx
    rcases hx with rfl | rfl | rfl | rfl
    · omega
    · omega
    · omega
    · omega
  · exact unitsToBytes_lt (strUnits name) x hx

theorem le32at_le32_append_mod (n : Nat) (rest : ByteSeq) :
    le32at (le32 n ++ rest) 0 = n % 4294967296 := by
  unfold le32at le32
  simp only [List.cons_append, List.getD_cons_zero, List.getD_cons_succ]
  omega

theorem spliceData_take (data : ByteSeq) (o sz : Nat) (nb : ByteSeq)
    (ho : o ≤ data.length) :
    (spliceData data o sz nb).take o = data.take o := by
  unfold spliceData
  have hlt : (data.take o).length = o := by
    rw [List.length_take]
    omega
  rw [List.append_assoc]
  rw [show (data.take o ++ (nb ++ data.drop (o + sz))).take o =
    (data.take o ++ (nb ++ data.drop (o + sz))).take (data.take o).length by
      rw [hlt]]
  rw [List.take_left]

theorem spliceData_drop_at (data : ByteSeq) (o sz : Nat) (nb : ByteSeq)
    (ho : o ≤ data.length) :
    (spliceData data o sz nb).drop o = nb ++ data.drop (o + sz) := by
  unfold spliceData
  have hlt : (data.take o).length = o := by
    rw [List.length_take]
    omega
  rw [List.append_assoc]
  rw [show (data.take o ++ (nb ++ data.drop (o + sz))).drop o =
    (data.take o ++ (nb ++ data.drop (o + sz))).drop (data.take o).length by
      rw [hlt]]
  rw [List.drop_left]

theorem spliceData_drop_after (data : ByteSeq) (o sz : Nat) (nb : ByteSeq)
    (ho : o ≤ data.length) :
    (spliceData data o sz nb).drop (o + nb.length) = data.drop (o + sz) := by
  have h1 := spliceData_drop_at data o sz nb ho
  have h2 : (spliceData data o sz nb).drop (o + nb.length) =
      ((spliceData data o sz nb).drop o).drop nb.length := by
    rw [List.drop_drop]
  rw [h2, h1]
  exact List.drop_left nb (data.drop (o + sz))

theorem spliceData_length_ge (data : ByteSeq) (o sz : Nat) (nb : ByteSeq)
    (ho : o ≤ data.length) : o ≤ (spliceData data o sz nb).length := by
  unfold spliceData
  simp only [List.length_append, List.length_take]
  omega

theorem spliceData_lt (data : ByteSeq) (o sz : Nat) (nb : ByteSeq)
    (hdata : ∀ x ∈ data, x < 256) (hnb : ∀ x ∈ nb, x < 256) :
    ∀ x ∈ spliceData data o sz nb, x < 256 := by
  unfold spliceData
  intro x hx
  rcases List.mem_append.mp hx with hx | hx
  · rcases List.mem_append.mp hx with hx | hx
    · exact hdata x (List.mem_of_mem_take hx)
    · exact hnb x hx
  · exact hdata x (List.mem_of_mem_drop hx)

/-! ## Parser and writer inversion lemmas -/

theorem parsePreferences_ok_inv (data : ByteSeq) (ps : ParserState)
    (h : parsePreferences data = .ok ps) :
    ps.data = data ∧ validateMagicHeader data = .ok () ∧
    findControlSurfaceStart data = .ok ps.start_offset ∧
    parseControlSurfaceSlots data ps.start_offset =
      .ok (ps.slots, ps.slot_offsets) := by
  unfold parsePreferences at h
  cases hm : validateMagicHeader data with
  | error e => rw [hm] at h; exact Except.noConfusion h
  | ok u =>
    obtain rfl : u = () := rfl
    rw [hm] at h
    dsimp only at h
    cases hst : findControlSurfaceStart data with
    | error e => rw [hst] at h; exact Except.noConfusion h
    | ok st =>
      rw [hst] at h
      dsimp only at h
      cases hsl : parseControlSurfaceSlots data st with
      | error e => rw [hsl] at h; exact Except.noConfusion h
      | ok r =>
        obtain ⟨sl, of⟩ := r
        rw [hsl] at h
        dsimp only at h
        obtain rfl := (Except.ok.injEq _ _).mp h
        exact ⟨rfl, rfl, rfl, hsl⟩

theorem parseControlSurfaceSlots_ok_inv (data : ByteSeq) (st : Nat)
    (sl : List ControlSurfaceSlot) (of : List SlotOffset)
    (h : parseControlSurfaceSlots data st = .ok (sl, of)) :
    ∃ fin, parseSlotsAux data NUM_CONTROL_SURFACE_SLOTS st 0 =
      .ok (sl, of, fin) := by
  unfold parseControlSurfaceSlots at h
  cases haux : parseSlotsAux data NUM_CONTROL_SURFACE_SLOTS st 0 with
  | error e => rw [haux] at h; exact Except.noConfusion h
  | ok r =>
    obtain ⟨sl0, of0, fin0⟩ := r
    rw [haux] at h
    dsimp only at h
    simp only [Except.ok.injEq, Prod.mk.injEq] at h
    obtain ⟨rfl, rfl⟩ := h
    exact ⟨fin0, rfl⟩

/-- Inversion of a successful `set_control_surface` call with an
explicit in-range slot index: the encoding succeeded, the spliced bytes
re-parsed successfully, the re-parsed target slot carries the requested
name, and the resulting writer state holds the spliced bytes, the
pre-write backup, and the re-parsed parser. -/
theorem setControlSurface_ok_inv (w : WriterState) (name : PyStr) (k : Nat)
    (hk : k < NUM_CONTROL_SURFACE_SLOTS)
    (h : (setControlSurface w name (some k) true).2 = .ok k) :
    ∃ nb p', writeUtf16String name = some nb ∧
      parsePreferences (spliceData w.disk
        (w.parser.slot_offsets.getD k default).script_name_offset
        (w.parser.slot_offsets.getD k default).script_name_size nb) =
          .ok p' ∧
      (p'.slots.getD k default).script_name = name ∧
      (setControlSurface w name (some k) true).1 =
        ⟨w.path, spliceData w.disk
          (w.parser.slot_offsets.getD k default).script_name_offset
          (w.parser.slot_offsets.getD k default).script_name_size nb,
          some w.disk, p'⟩ := by
  have htarget : findTargetSlot w.parser (some k) = .ok k := by
    unfold findTargetSlot
    dsimp only
    rw [if_pos hk]
  cases henc : writeUtf16String name with
  | none =>
    have hval : (setControlSurface w name (some k) true).2 =
        .error .encodeError := by
      unfold setControlSurface
      rw [htarget]
      dsimp only
      rw [henc]
    rw [hval] at h
    exact Except.noConfusion h
  | some nb =>
    cases hp : parsePreferences (spliceData w.disk
        (w.parser.slot_offsets.getD k default).script_name_offset
        (w.parser.slot_offsets.getD k default).script_name_size nb) with
    | error e =>
      have hval : (setControlSurface w name (some k) true).2 =
          .error (.writeError w.backup_path) := by
        unfold setControlSurface
        rw [htarget]
        dsimp only
        rw [henc]
        dsimp only
        rw [hp]
      rw [hval] at h
      exact Except.noConfusion h
    | ok p' =>
      by_cases hs : (p'.slots.getD k default).script_name = name
      · have hstate : setControlSurface w name (some k) true =
            (⟨w.path, spliceData w.disk
              (w.parser.slot_offsets.getD k default).script_name_offset
              (w.parser.slot_offsets.getD k default).script_name_size nb,
              some w.disk, p'⟩, .ok k) := by
          unfold setControlSurface
          rw [htarget]
          dsimp only
          rw [henc]
          dsimp only
          rw [hp]
          dsimp only
          rw [if_pos hs]
          rfl
        exact ⟨nb, p', rfl, hp, hs, by rw [hstate]⟩
      · have hval : (setControlSurface w name (some k) true).2 =
            .error (.writeError w.backup_path) := by
          unfold setControlSurface
          rw [htarget]
          dsimp only
          rw [henc]
          dsimp only
          rw [hp]
          dsimp only
          rw [if_neg hs]
        rw [hval] at h
        exact Except.noConfusion h

set_option maxHeartbeats 2000000 in
/-- **C3 (amended)** — For every valid preferences buffer `B` (parsed as
`ps`) and every `set_control_surface(name, k)` call that succeeds *and
whose verification re-parse anchors the slot block at the same offset as
the pre-write parse*: the written file is the variable-width splice of
the freshly read bytes at slot `k`'s old script-name field (bytes before
the field unchanged, bytes after it shifted by `newSize - oldSize`), the
re-parse yields slot `k` with `script_name = name`, and every other
slot's three fields are unchanged from the pre-write parse.  (Without
the same-anchor hypothesis the statement is false: a crafted buffer can
re-anchor verification onto a fake slot block, see the counterexample.) -/
theorem c3_amended (path : String) (bk : Option ByteSeq) (B : ByteSeq)
    (ps : ParserState) (name : PyStr) (k : Nat) (nb : ByteSeq)
    (hbyte : ∀ x ∈ B, x < 256)
    (hcons : parsePreferences B = .ok ps)
    (hk : k < NUM_CONTROL_SURFACE_SLOTS)
    (henc : writeUtf16String name = some nb)
    (hcall : (setControlSurface ⟨path, B, bk, ps⟩ name (some k) true).2 =
      .ok k)
    (hanchor :
      (setControlSurface ⟨path, B, bk, ps⟩ name (some k)
        true).1.parser.start_offset = ps.start_offset) :
    (setControlSurface ⟨path, B, bk, ps⟩ name (some k) true).1.disk =
      spliceData B (ps.slot_offsets.getD k default).script_name_offset
        (ps.slot_offsets.getD k default).script_name_size nb ∧
    ((setControlSurface ⟨path, B, bk, ps⟩ name (some k)
      true).1.parser.slots.getD k default).script_name = name ∧
    (∀ j, j < NUM_CONTROL_SURFACE_SLOTS → j ≠ k →
      (setControlSurface ⟨path, B, bk, ps⟩ name (some k)
        true).1.parser.slots.getD j default = ps.slots.getD j default) ∧
    ((setControlSurface ⟨path, B, bk, ps⟩ name (some k)
      true).1.disk).take
        (ps.slot_offsets.getD k default).script_name_offset =
      B.take (ps.slot_offsets.getD k default).script_name_offset ∧
    ((setControlSurface ⟨path, B, bk, ps⟩ name (some k)
      true).1.disk).drop
        ((ps.slot_offsets.getD k default).script_name_offset + nb.length) =
      B.drop ((ps.slot_offsets.getD k default).script_name_offset +
        (ps.slot_offsets.getD k default).script_name_size) := by
  -- invert the successful call
  obtain ⟨nb', p', henc', hp, hsname, hstate⟩ :=
    setControlSurface_ok_inv ⟨path, B, bk, ps⟩ name k hk hcall
  have hnb : nb = nb' := by
    rw [henc] at henc'
    exact (Option.some.injEq _ _).mp henc'
  subst hnb
  -- the writer's disk and parser are just B and ps
  have hwdisk : (⟨path, B, bk, ps⟩ : WriterState).disk = B := rfl
  have hwpar : (⟨path, B, bk, ps⟩ : WriterState).parser = ps := rfl
  rw [hwdisk, hwpar] at hp hstate
  -- invert the pre-write parse
  obtain ⟨-, -, hstartB, hslotsB⟩ := parsePreferences_ok_inv B ps hcons
  obtain ⟨finB, hauxB⟩ := parseControlSurfaceSlots_ok_inv B ps.start_offset
    ps.slots ps.slot_offsets hslotsB
  have hnum : NUM_CONTROL_SURFACE_SLOTS = 7 := rfl
  rw [hnum] at hauxB hk
  have h7 : (7 : Nat) = k + ((6 - k) + 1) := by omega
  rw [h7] at hauxB
  obtain ⟨sl1, of1, mid, sl2, of2, hA, hB2, hslcat, hofcat⟩ :=
    parseSlotsAux_split B k ((6 - k) + 1) ps.start_offset 0 ps.slots
      ps.slot_offsets finB hauxB
  rw [Nat.zero_add] at hB2
  obtain ⟨hlen1, hleno1, -⟩ :=
    parseSlotsAux_shape B k ps.start_offset 0 sl1 of1 mid hA
  -- one record of the pre-write parse at slot k
  rw [parseSlotsAux_succ_ok_iff] at hB2
  obtain ⟨sk, n1, ik, n2, ok2, n3, slrest, ofrest, hb1, hb2, hb3, hrecB,
    hsl2, hof2⟩ := hB2
  -- slot k's cached field offsets
  have hofk : ps.slot_offsets.getD k default =
      ⟨k, mid, n1, mid + n1, n2, mid + n1 + n2, n3⟩ := by
    rw [hofcat, hof2, List.getD_append_right _ _ _ _ (le_of_eq hleno1),
      hleno1]
    simp
  have hb1b := readUtf16String_bounds B mid sk n1 hb1
  have hb2b := readUtf16String_bounds B (mid + n1) ik n2 hb2
  have hb3b := readUtf16String_bounds B (mid + n1 + n2) ok2 n3 hb3
  have hmidB : mid ≤ B.length := by omega
  -- facts about the spliced buffer
  have hnbv : ∀ x ∈ nb, x < 256 := writeUtf16String_lt name nb henc
  have hBtake := spliceData_take B mid n1 nb hmidB
  have hBdropAt := spliceData_drop_at B mid n1 nb hmidB
  have hBdropAfter := spliceData_drop_after B mid n1 nb hmidB
  have hB'ge := spliceData_length_ge B mid n1 nb hmidB
  have hB'v : ∀ x ∈ spliceData B mid n1 nb, x < 256 :=
    spliceData_lt B mid n1 nb hbyte hnbv
  -- rewrite everything to the slot-k offsets
  rw [hofk] at hp hstate ⊢
  dsimp only at hp hstate ⊢
  -- invert the post-write parse
  rw [hstate] at hanchor ⊢
  dsimp only at hanchor ⊢
  obtain ⟨-, -, hstart', hslots'⟩ := parsePreferences_ok_inv _ p' hp
  obtain ⟨fin', haux'⟩ := parseControlSurfaceSlots_ok_inv _ p'.start_offset
    p'.slots p'.slot_offsets hslots'
  rw [hanchor] at haux'
  rw [hnum, h7] at haux'
  obtain ⟨sl1', of1', mid', sl2', of2', hA', hB2', hslcat', hofcat'⟩ :=
    parseSlotsAux_split _ k ((6 - k) + 1) ps.start_offset 0 p'.slots
      p'.slot_offsets fin' haux'
  rw [Nat.zero_add] at hB2'
  -- the first k records of the post-write parse coincide with the old ones
  have hA'' : parseSlotsAux (spliceData B mid n1 nb) k ps.start_offset 0 =
      .ok (sl1, of1, mid) :=
    parseSlotsAux_take_eq B (spliceData B mid n1 nb) mid hBtake.symm hmidB
      hB'ge k ps.start_offset 0 sl1 of1 mid hA (le_refl mid)
  have hAeq := hA''.symm.trans hA'
  simp only [Except.ok.injEq, Prod.mk.injEq] at hAeq
  obtain ⟨rfl, rfl, rfl⟩ := hAeq
  -- one record of the post-write parse at slot k
  rw [parseSlotsAux_succ_ok_iff] at hB2'
  obtain ⟨s1', n1', s2', n2', s3', n3', slrest', ofrest', hb1', hb2', hb3',
    hrecB', hsl2', hof2'⟩ := hB2'
  -- the slot-k script of the post-write parse is the requested name
  have hs1' : s1' = name := by
    have h := hsname
    rw [hslcat', hsl2', List.getD_append_right _ _ _ _ (le_of_eq hlen1),
      hlen1, Nat.sub_self] at h
    simpa using h
  rw [hs1'] at hb1'
  -- decompose the encoded record
  obtain ⟨hnbform, hnosur, hnblen⟩ := writeUtf16String_some_inv name nb henc
  -- the length prefix read back at the splice point
  have hL' : le32at (spliceData B mid n1 nb) mid = name.length % 4294967296
      := by
    rw [le32at_drop, hBdropAt, hnbform, List.append_assoc,
      le32at_le32_append_mod]
  -- characterize the slot-k script read on the spliced buffer
  rw [readUtf16String_ok_iff] at hb1'
  obtain ⟨hc1, hc2, hc3, hc4, hc5⟩ := hb1'
  -- the decoded payload is exactly the UTF-16 bytes of the name
  have hslicev : ∀ x ∈ slice (spliceData B mid n1 nb) (mid + 4)
      (mid + 4 + le32at (spliceData B mid n1 nb) mid * 2), x < 256 := by
    intro x hx
    unfold slice at hx
    exact hB'v x (List.mem_of_mem_drop (List.mem_of_mem_take hx))
  have hencinv := utf16leDecode_inv _ name hslicev hc4
  have hpb : unitsToBytes (strUnits name) =
      slice (spliceData B mid n1 nb) (mid + 4)
        (mid + 4 + le32at (spliceData B mid n1 nb) mid * 2) := by
    unfold utf16leEncode at hencinv
    rw [hnosur] at hencinv
    simp only [Bool.false_eq_true, if_false, Option.some.injEq] at hencinv
    exact hencinv
  -- lengths force the name to be BMP-clean: L' = |name| = |strUnits name|
  have hslen : (slice (spliceData B mid n1 nb) (mid + 4)
      (mid + 4 + le32at (spliceData B mid n1 nb) mid * 2)).length =
      2 * (strUnits name).length := by
    rw [← hpb, unitsToBytes_length]
  have hsltake : (slice (spliceData B mid n1 nb) (mid + 4)
      (mid + 4 + le32at (spliceData B mid n1 nb) mid * 2)).length ≤
      le32at (spliceData B mid n1 nb) mid * 2 := by
    unfold slice
    rw [List.length_take]
    have : mid + 4 + le32at (spliceData B mid n1 nb) mid * 2 - (mid + 4) =
        le32at (spliceData B mid n1 nb) mid * 2 := by omega
    rw [this]
    exact Nat.min_le_left _ _
  have hUge := strUnits_length_ge name
  have hLeq : le32at (spliceData B mid n1 nb) mid = name.length ∧
      name.length = (strUnits name).length := by
    have hmod : name.length % 4294967296 ≤ name.length :=
      Nat.mod_le _ _
    omega
  -- the consumed size of the written record equals the encoded length
  have hn1' : n1' = nb.length := by
    rw [hc5, hnblen, hLeq.1, hLeq.2]
    omega
  -- input and output reads of slot k, and the remaining records,
  -- see the same bytes as before the write
  have hdrop1 : (spliceData B mid n1 nb).drop (mid + n1') =
      B.drop (mid + n1) := by
    rw [hn1']
    exact hBdropAfter
  have hread2 := readUtf16String_drop_eq (spliceData B mid n1 nb) B
    (mid + n1') (mid + n1) hdrop1
  have hb2'' := hb2'
  rw [hread2, hb2] at hb2''
  simp only [Except.ok.injEq, Prod.mk.injEq] at hb2''
  obtain ⟨rfl, rfl⟩ := hb2''.symm
  have hdrop2 : (spliceData B mid n1 nb).drop (mid + n1' + n2) =
      B.drop (mid + n1 + n2) := by
    rw [← List.drop_drop, hdrop1, List.drop_drop]
  have hread3 := readUtf16String_drop_eq (spliceData B mid n1 nb) B
    (mid + n1' + n2) (mid + n1 + n2) hdrop2
  have hb3'' := hb3'
  rw [hread3, hb3] at hb3''
  simp only [Except.ok.injEq, Prod.mk.injEq] at hb3''
  obtain ⟨rfl, rfl⟩ := hb3''.symm
  have hdrop3 : (spliceData B mid n1 nb).drop (mid + n1' + n2 + n3) =
      B.drop (mid + n1 + n2 + n3) := by
    rw [← List.drop_drop, hdrop2, List.drop_drop]
  obtain ⟨ofx, finx, hrecx, -⟩ :=
    (parseSlotsAux_drop_eq B (spliceData B mid n1 nb) (6 - k)
      (mid + n1 + n2 + n3) (mid + n1' + n2 + n3) (k + 1) hdrop3.symm).1
      slrest ofrest finB hrecB
  have hreceq := hrecx.symm.trans hrecB'
  simp only [Except.ok.injEq, Prod.mk.injEq] at hreceq
  obtain ⟨rfl, -, -⟩ := hreceq
  -- assemble the conclusions
  refine ⟨rfl, hsname, ?_, ?_, ?_⟩
  · intro j hj hjk
    rw [hslcat, hsl2, hslcat', hsl2']
    by_cases hjlt : j < k
    · rw [List.getD_append _ _ _ _ (hlen1 ▸ hjlt),
        List.getD_append _ _ _ _ (hlen1 ▸ hjlt)]
    · have hjgt : k < j := by omega
      rw [List.getD_append_right _ _ _ _ (by omega : sl1.length ≤ j),
        List.getD_append_right _ _ _ _ (by omega : sl1.length ≤ j)]
      have : j - sl1.length ≠ 0 := by
        rw [hlen1]
        omega
      cases hcase : j - sl1.length with
      | zero => exact absurd hcase this
      | succ m => simp only [List.getD_cons_succ]
  · exact hBtake
  · exact hBdropAfter

/-- The parser state cached by a writer constructed on `fixtureC`. -/
def trickyParser : ParserState :=
  (parsePreferences fixtureC).toOption.getD default

/-- A writer constructed on the adversarial-but-valid buffer `fixtureC`;
its cached parser matches the disk exactly (no staleness involved). -/
def trickyWriter : WriterState :=
  ⟨"Preferences.cfg", fixtureC, none, trickyParser⟩

set_option maxRecDepth 1000000 in
set_option maxHeartbeats 64000000 in
/-- Counterexample for C3 as stated: on the valid preferences buffer
`fixtureC` the call `set_control_surface(strA115, 1)` *succeeds* — the
written length byte `115 = 's'` completes a new, later marker occurrence
ending at the spliced field, so verification re-anchors onto the decoy
slot block planted in the trailing bytes, where slot 1's script is
indeed `strA115` — yet the re-parsed slot 0 now reads `"X"` where the
pre-write parse had `"None"`: another slot's fields changed under a
successful call. -/
theorem c3_counterexample :
    parsePreferences trickyWriter.disk = .ok trickyWriter.parser ∧
    (setControlSurface trickyWriter strA115 (some 1) true).2 = .ok 1 ∧
    (trickyWriter.parser.slots.getD 0 default).script_name = NONE_STR ∧
    ((setControlSurface trickyWriter strA115 (some 1)
      true).1.parser.slots.getD 0 default).script_name = [88] := by
  refine ⟨by decide, by decide, by decide, by decide⟩

set_option maxRecDepth 1000000 in
set_option maxHeartbeats 64000000 in
/-- Witness for C3 (amended): writing `"X"` into slot 0 of the plain
fixture succeeds with a same-anchor verification, slot 0 reads back as
`"X"`, and slot 1 is unchanged. -/
theorem c3_amended_witness :
    ((setControlSurface ⟨"Preferences.cfg", fixtureA, none, cachedParserA⟩
      strX (some 0) true).1.parser.slots.getD 0 default).script_name =
        strX ∧
    (∀ j, j < NUM_CONTROL_SURFACE_SLOTS → j ≠ 0 →
      (setControlSurface ⟨"Preferences.cfg", fixtureA, none, cachedParserA⟩
        strX (some 0) true).1.parser.slots.getD j default =
        cachedParserA.slots.getD j default) := by
  have h := c3_amended "Preferences.cfg" none fixtureA cachedParserA strX 0
    [1, 0, 0, 0, 88, 0] (by decide) (by decide) (by decide) (by decide)
    (by decide) (by decide)
  exact ⟨h.2.1, h.2.2.1⟩

end AbletonPrefs
